import Mathlib

/-!
Verification development for the specway-cli core: a shallow embedding of
`src/lib/parser.ts` (the Normalizer / Version Extractors / Field Flattener)
and `src/lib/diff-engine.ts` (the Diff Engine), with theorems settling the
frozen claims about them.

Modelling conventions:
* JSON documents are modelled by the inductive `Json`; JavaScript property
  access `o.k` / `o?.k` is `Json.get` / `optGet` (absent ≡ `undefined` ≡
  `none`), JavaScript truthiness is `Json.truthy`, `a || b` is `jsonOr`.
* JavaScript `Map` objects are association lists in insertion order:
  `Map.set` on an existing key updates the value in place and keeps the
  original position (`setEntry`); `Map` and `Set` iteration order is
  insertion order (`buildMap`, `keySet`).
* Machine strings are Lean `String`s; the numeric leaves of documents are
  `Int` (no claim depends on non-integral numbers).
* `try`/`catch` blocks in the source only fire on JavaScript runtime type
  errors (e.g. iterating a non-iterable); the total Lean functions treat the
  corresponding malformed shapes as the empty/default case, which is also
  what the source returns from those `catch` blocks (after recording a
  warning string, which no claim inspects and which we drop).
-/

namespace Specway

/-- JSON values, the deserialized documents the parser receives.
Object fields are kept in document order, as JavaScript `Object.entries`
iterates them. -/
inductive Json where
  | null
  | bool (b : Bool)
  | num (n : Int)
  | str (s : String)
  | arr (elems : List Json)
  | obj (fields : List (String × Json))

/-- First value bound to `key` in an object's field list (JavaScript object
keys are unique; for a well-formed document this is the binding). -/
def lookupField : List (String × Json) → String → Option Json
  | [], _ => none
  | (k, v) :: rest, key => if k = key then some v else lookupField rest key

/-- JavaScript property access `j[key]`: `none` plays `undefined`. -/
def Json.get : Json → String → Option Json
  | .obj fs, key => lookupField fs key
  | _, _ => none

/-- JavaScript `Object.entries(j)`: the fields of an object, `[]` for
primitives (as `Object.entries` returns for them). -/
def Json.entries : Json → List (String × Json)
  | .obj fs => fs
  | _ => []

/-- JavaScript truthiness of a JSON value. -/
def Json.truthy : Json → Bool
  | .null => false
  | .bool b => b
  | .num n => n != 0
  | .str s => s != ""
  | .arr _ => true
  | .obj _ => true

/-- Truthiness of a possibly-absent value (`undefined` is falsy). -/
def truthyOpt : Option Json → Bool
  | none => false
  | some j => j.truthy

/-- JavaScript `'key' in j` for the shapes the parser meets (objects); on
primitives the source's `in` would throw inside a `try` whose `catch`
returns the empty case, which coincides with `false` here. -/
def Json.hasKey (j : Json) (k : String) : Bool :=
  (j.get k).isSome

/-- JavaScript `a || b` on a possibly-absent `a`. -/
def jsonOr (a : Option Json) (b : Json) : Json :=
  match a with
  | some v => if v.truthy then v else b
  | none => b

/-- First truthy value of a list of possibly-absent values, else the default:
`x1 || x2 || ... || d`. -/
def firstTruthy : List (Option Json) → Json → Json
  | [], d => d
  | x :: rest, d =>
    match x with
    | some v => if v.truthy then v else firstTruthy rest d
    | none => firstTruthy rest d

/-- Optional chaining `o?.[key]`. -/
def optGet (o : Option Json) (k : String) : Option Json :=
  o.bind (fun j => j.get k)

/-- JavaScript strict equality `v === "t"` of a possibly-absent value against
a string literal. -/
def strValIs (o : Option Json) (t : String) : Bool :=
  match o with
  | some (.str s) => s == t
  | _ => false

/-- JavaScript `\w` character class: `[A-Za-z0-9_]`. -/
def isWordChar (c : Char) : Bool :=
  c.isAlphanum || c == '_'

/-- The second replace of `toTitleCase` (`parser.ts:691-695`): upper-case
every word character standing at a word boundary (`\b\w`). The boolean says
whether the previous character was a word character. -/
def upperAtBoundaries : Bool → List Char → List Char
  | _, [] => []
  | prevWord, c :: rest =>
    if isWordChar c && !prevWord then c.toUpper :: upperAtBoundaries true rest
    else c :: upperAtBoundaries (isWordChar c) rest

/-- `toTitleCase` (`parser.ts:691-695`): replace `-`/`_` by spaces, then
upper-case the first character of every word. -/
def toTitleCase (s : String) : String :=
  .mk (upperAtBoundaries false
    (s.data.map (fun c => if c == '-' || c == '_' then ' ' else c)))

/-- The character class `[a-z0-9]` of `generateSlug`'s replacement regex. -/
def isSlugChar (c : Char) : Bool :=
  ('a' ≤ c && c ≤ 'z') || ('0' ≤ c && c ≤ '9')

/-- `replace(/[^a-z0-9]+/g, '-')`: collapse every maximal run of
non-slug characters to a single hyphen. The boolean says whether we are
inside such a run. -/
def collapseNonSlug : Bool → List Char → List Char
  | _, [] => []
  | inRun, c :: rest =>
    if isSlugChar c then c :: collapseNonSlug false rest
    else if inRun then collapseNonSlug true rest
    else '-' :: collapseNonSlug true rest

/-- `replace(/^-+|-+$/g, '')`: strip leading and trailing hyphens. -/
def trimHyphens (l : List Char) : List Char :=
  ((l.dropWhile (fun c => c == '-')).reverse.dropWhile (fun c => c == '-')).reverse

/-- `generateSlug` (`parser.ts:684-689`). -/
def generateSlug (input : String) : String :=
  .mk (trimHyphens (collapseNonSlug false input.toLower.data))

/-- The canonical field `type` values (`types.ts`, `ParsedField.type`). -/
inductive FieldType where
  | string
  | number
  | boolean
  | array
  | object
deriving DecidableEq, Repr

/-- `schemaTypeToFieldType` (`parser.ts`): map a declared schema `type` to a
canonical field type; anything that is not one of the six recognized strings
(including an absent or non-string value) falls to the `default` arm,
`string`. -/
def schemaTypeToFieldType (type : Option Json) : FieldType :=
  match type with
  | some (.str "string") => .string
  | some (.str "number") => .number
  | some (.str "integer") => .number
  | some (.str "boolean") => .boolean
  | some (.str "array") => .array
  | some (.str "object") => .object
  | _ => .string

/-- `ParsedField` (`types.ts`): one canonical schema-field descriptor.
`key`/`label` are the strings the extractor computes, `type` and `required`
its computed enum/flag; the pass-through fields (`enum`, `description`,
`format`, `default`, `example`) hold whatever raw JSON value the source
document carried (the TypeScript annotations refine these, but the runtime
stores the raw value), `none` when absent. `properties` and `items` are the
recursive parts. The constructor argument order follows `types.ts`
(`exampleVal` stands for the source's `example`, a Lean keyword). -/
inductive ParsedField where
  | mk (key : String) (label : String) (type : FieldType) (required : Bool)
      (enum : Option Json) (description : Option Json) (format : Option Json)
      (default : Option Json) (properties : Option (List ParsedField))
      (items : Option ParsedField) (exampleVal : Option Json)

def ParsedField.key : ParsedField → String
  | .mk k _ _ _ _ _ _ _ _ _ _ => k

def ParsedField.label : ParsedField → String
  | .mk _ l _ _ _ _ _ _ _ _ _ => l

def ParsedField.type : ParsedField → FieldType
  | .mk _ _ t _ _ _ _ _ _ _ _ => t

def ParsedField.required : ParsedField → Bool
  | .mk _ _ _ r _ _ _ _ _ _ _ => r

def ParsedField.properties : ParsedField → Option (List ParsedField)
  | .mk _ _ _ _ _ _ _ _ ps _ _ => ps

def ParsedField.items : ParsedField → Option ParsedField
  | .mk _ _ _ _ _ _ _ _ _ it _ => it

/-- The `required` name list of an object schema:
`(schema.required as string[]) || []` (`parser.ts:608`). A present but
non-array value would make the source's `includes` throw into the
surrounding `catch`, which returns the empty field list; it contributes no
required key either way. -/
def requiredOf (schema : Json) : List Json :=
  match schema.get "required" with
  | some (.arr xs) => xs
  | _ => []

/-- `required.includes(key)`: JavaScript strict equality, so only a string
element equal to `key` matches. -/
def requiredIncludes (req : List Json) (key : String) : Bool :=
  req.any (fun v => match v with | .str s => s == key | _ => false)

theorem sizeOf_lookupField {fs : List (String × Json)} {k : String} {v : Json}
    (h : lookupField fs k = some v) : sizeOf v < sizeOf fs := by
  induction fs with
  | nil => simp [lookupField] at h
  | cons e rest ih =>
    obtain ⟨k', v'⟩ := e
    simp only [lookupField] at h
    split at h
    · cases h; simp; omega
    · have := ih h; simp; omega

theorem sizeOf_get {j : Json} {k : String} {v : Json} (h : j.get k = some v) :
    sizeOf v < sizeOf j := by
  cases j <;> simp [Json.get] at h
  case obj fs =>
    have := sizeOf_lookupField h
    simp
    omega

theorem sizeOf_entries (j : Json) : sizeOf j.entries ≤ sizeOf j := by
  cases j
  case obj fs => simp [Json.entries]
  all_goals simp [Json.entries]

mutual

/-- `schemaToFields` (`parser.ts:598-668`): flatten a schema node into a
list of canonical fields, cutting off below a fixed recursion depth. The
source signature carries a `warnings` accumulator that is only appended to
in `catch` arms; the total embedding has no throwing path, so the parameter
is dropped. The two loops of the source are the mutual companions
`schemaProps` (the per-property loop) and `schemaItems` (the array-items
part of one property). -/
def schemaToFields (schema : Json) (depth : Nat) : List ParsedField :=
  if depth > 2 then []
  else if strValIs (schema.get "type") "object"
      && truthyOpt (schema.get "properties") then
    match h : schema.get "properties" with
    | some props => schemaProps (requiredOf schema) props.entries depth
    | none => []
  else
    match h : schema.get "items" with
    | some items =>
      if strValIs (schema.get "type") "array" && items.truthy
          && !(items.hasKey "$ref") then
        schemaToFields items depth
      else []
    | none => []
termination_by sizeOf schema
decreasing_by
  · have h1 := sizeOf_get h
    have h2 := sizeOf_entries props
    omega
  · exact sizeOf_get h

/-- The `for (const [key, propSchema] of Object.entries(schema.properties))`
loop of `schemaToFields` (`parser.ts:610-648`): `$ref` properties are
skipped, every other property becomes one field, in document order. -/
def schemaProps (req : List Json) (properties : List (String × Json))
    (depth : Nat) : List ParsedField :=
  match properties with
  | [] => []
  | (key, prop) :: rest =>
    if prop.hasKey "$ref" then schemaProps req rest depth
    else
      ParsedField.mk key (toTitleCase key) (schemaTypeToFieldType (prop.get "type"))
        (requiredIncludes req key) (prop.get "enum") (prop.get "description")
        (prop.get "format") (prop.get "default")
        (if strValIs (prop.get "type") "object" && truthyOpt (prop.get "properties")
         then some (schemaToFields prop (depth + 1)) else none)
        (schemaItems prop depth)
        (prop.get "example")
      :: schemaProps req rest depth
termination_by sizeOf properties
decreasing_by all_goals (simp <;> omega)

/-- The array-items part of the property loop (`parser.ts:630-645`): a
synthetic `"item"` descriptor for an array property with a non-`$ref` item
schema, recursing into the item schema's own properties when it is an
object. -/
def schemaItems (prop : Json) (depth : Nat) : Option ParsedField :=
  match h : prop.get "items" with
  | some items =>
    if strValIs (prop.get "type") "array" && items.truthy
        && !(items.hasKey "$ref") then
      some (ParsedField.mk "item" "Item"
        (schemaTypeToFieldType (items.get "type")) false
        (items.get "enum") (items.get "description") (items.get "format") none
        (if strValIs (items.get "type") "object" && truthyOpt (items.get "properties")
         then some (schemaToFields items (depth + 1)) else none)
        none none)
    else none
  | none => none
termination_by sizeOf prop
decreasing_by exact sizeOf_get h

end

/-- `ParsedAction` (`types.ts`): one canonical endpoint record. `method` is
the upper-cased method string; `tags`/`deprecated` hold the raw operation
values. -/
structure ParsedAction where
  slug : String
  label : String
  description : String
  method : String
  path : String
  pathParams : List ParsedField
  queryParams : List ParsedField
  bodySchema : List ParsedField
  responseSchema : List ParsedField
  tags : Option Json
  deprecated : Option Json

/-- `ChangeType` (`diff-engine.ts`): `'breaking' | 'non-breaking'`. -/
inductive ChangeType where
  | breaking
  | nonBreaking
deriving DecidableEq, Repr

/-- `DiffChange` (`diff-engine.ts`). -/
structure DiffChange where
  type : ChangeType
  category : String
  message : String
  method : Option String
  path : Option String
deriving DecidableEq, Repr

/-- `DiffResult` (`diff-engine.ts`). -/
structure DiffResult where
  changes : List DiffChange
  breakingCount : Nat
  nonBreakingCount : Nat
deriving DecidableEq, Repr

/-- JavaScript `Map.set m k v`: update in place when the key is present
(keeping its original position), append otherwise. -/
def setEntry {α : Type} : List (String × α) → String → α → List (String × α)
  | [], k, v => [(k, v)]
  | (k', v') :: rest, k, v =>
    if k' = k then (k, v) :: rest else (k', v') :: setEntry rest k v

/-- JavaScript `Map.get`. -/
def mapGet {α : Type} (m : List (String × α)) (k : String) : Option α :=
  (m.find? (fun e => e.1 == k)).map (fun e => e.2)

/-- JavaScript `Map.has`. -/
def mapHas {α : Type} (m : List (String × α)) (k : String) : Bool :=
  (mapGet m k).isSome

/-- Build a JavaScript `Map` keyed by `key` from a list, by repeated
`Map.set` — the loops at `diff-engine.ts:28-36` and `148-151`. -/
def buildMap {α : Type} (key : α → String) (xs : List α) : List (String × α) :=
  xs.foldl (fun m a => setEntry m (key a) a) []

/-- JavaScript `Set.add`: append when not yet present. -/
def insertKey (ks : List String) (k : String) : List String :=
  if ks.contains k then ks else ks ++ [k]

/-- JavaScript `new Set(list)`: deduplicate keeping first occurrences, in
insertion order (the order `for ... of` then iterates). -/
def keySet (l : List String) : List String :=
  l.foldl insertKey []

/-- The map key `` `${a.method} ${a.path}` `` of `diff-engine.ts:30`. -/
def actionKey (a : ParsedAction) : String :=
  a.method ++ " " ++ a.path

/-- Printed name of a field type, as it appears in the
`param-type-changed` message. -/
def fieldTypeName : FieldType → String
  | .string => "string"
  | .number => "number"
  | .boolean => "boolean"
  | .array => "array"
  | .object => "object"

/-- `compareEndpoints` (`diff-engine.ts:79-207`): the per-endpoint
comparison, emitting its changes in the source's block order. Each `let`
mirrors one block of the source; the final list is the order in which the
source `push`es. -/
def compareEndpoints (oldAction newAction : ParsedAction) : List DiffChange :=
  let method := newAction.method
  let path := newAction.path
  -- Required params added (breaking)
  let oldRequiredParams :=
    keySet (((oldAction.queryParams ++ oldAction.pathParams).filter
      (fun p => p.required)).map (fun p => p.key))
  let newRequiredParams :=
    (newAction.queryParams ++ newAction.pathParams).filter (fun p => p.required)
  let requiredAdded : List DiffChange := newRequiredParams.filterMap (fun p =>
    if oldRequiredParams.contains p.key then none
    else some { type := ChangeType.breaking, category := "required-param-added",
                message := "Required parameter added: \"" ++ p.key ++ "\" on "
                  ++ method ++ " " ++ path,
                method := some method, path := some path })
  -- Optional params added (non-breaking)
  let oldAllParams :=
    keySet ((oldAction.queryParams ++ oldAction.pathParams).map (fun p => p.key))
  let newOptionalParams :=
    (newAction.queryParams ++ newAction.pathParams).filter (fun p => !p.required)
  let optionalAdded : List DiffChange := newOptionalParams.filterMap (fun p =>
    if oldAllParams.contains p.key then none
    else some { type := ChangeType.nonBreaking, category := "optional-param-added",
                message := "Optional parameter added: \"" ++ p.key ++ "\" on "
                  ++ method ++ " " ++ path,
                method := some method, path := some path })
  -- Params removed (breaking)
  let newAllParams :=
    keySet ((newAction.queryParams ++ newAction.pathParams).map (fun p => p.key))
  let paramsRemoved : List DiffChange := oldAllParams.filterMap (fun k =>
    if newAllParams.contains k then none
    else some { type := ChangeType.breaking, category := "param-removed",
                message := "Parameter removed: \"" ++ k ++ "\" from "
                  ++ method ++ " " ++ path,
                method := some method, path := some path })
  -- Param type changes (breaking)
  let oldParamMap :=
    buildMap ParsedField.key (oldAction.queryParams ++ oldAction.pathParams)
  let typeChanged : List DiffChange :=
    (newAction.queryParams ++ newAction.pathParams).filterMap (fun p =>
      match mapGet oldParamMap p.key with
      | some old =>
        if old.type != p.type then
          some { type := ChangeType.breaking, category := "param-type-changed",
                 message := "Parameter type changed: \"" ++ p.key ++ "\" "
                   ++ fieldTypeName old.type ++ " -> " ++ fieldTypeName p.type
                   ++ " on " ++ method ++ " " ++ path,
                 method := some method, path := some path }
        else none
      | none => none)
  -- Required body fields added (breaking)
  let oldBodyKeys := keySet (oldAction.bodySchema.map (fun f => f.key))
  let requiredBodyAdded : List DiffChange := newAction.bodySchema.filterMap (fun f =>
    if f.required && !(oldBodyKeys.contains f.key) then
      some { type := ChangeType.breaking, category := "required-body-field-added",
             message := "Required body field added: \"" ++ f.key ++ "\" on "
               ++ method ++ " " ++ path,
             method := some method, path := some path }
    else none)
  -- Response fields removed (breaking)
  let newResponseKeys := keySet (newAction.responseSchema.map (fun f => f.key))
  let responseRemoved : List DiffChange := oldAction.responseSchema.filterMap (fun f =>
    if newResponseKeys.contains f.key then none
    else some { type := ChangeType.breaking, category := "response-field-removed",
                message := "Response field removed: \"" ++ f.key ++ "\" from "
                  ++ method ++ " " ++ path,
                method := some method, path := some path })
  -- Description changes (non-breaking)
  let descriptionChanged : List DiffChange :=
    if oldAction.description != newAction.description
        && oldAction.description != "" && newAction.description != "" then
      [{ type := ChangeType.nonBreaking, category := "description-changed",
         message := "Description changed on " ++ method ++ " " ++ path,
         method := some method, path := some path : DiffChange }]
    else []
  requiredAdded ++ optionalAdded ++ paramsRemoved ++ typeChanged
    ++ requiredBodyAdded ++ responseRemoved ++ descriptionChanged

/-- `AuthConfig`: the union
`ApiKeyAuthConfig | BearerAuthConfig | OAuth2AuthConfig` (`types.ts`), each
variant carrying the raw values the extractor stores (`inLocation` stands
for the source's field `in`, a Lean keyword). -/
inductive AuthConfig where
  | apiKey (name : Json) (inLocation : Json)
  | bearer (scheme : Json)
  | oauth2 (authorizationUrl : Json) (tokenUrl : Json) (scopes : Json)

/-- `ParsedAuth` (`types.ts`): `type` is one of
`"apiKey" | "bearer" | "oauth2" | "none"`, `config` is the union value or
`null`. -/
structure ParsedAuth where
  type : String
  config : Option AuthConfig

/-- The non-`$ref` security-scheme entries (`parser.ts:194-196`,
`isSecurityScheme`). -/
def securitySchemeEntries (s : Json) : List (String × Json) :=
  s.entries.filter (fun e => !(e.2.hasKey "$ref"))

/-- `entries.find(([, s]) => s.type === 'apiKey')` (`parser.ts:198`). -/
def findApiKeyScheme (entries : List (String × Json)) : Option (String × Json) :=
  entries.find? (fun e => strValIs (e.2.get "type") "apiKey")

/-- `entries.find(([, s]) => s.type === 'http' && s.scheme === 'bearer')`
(`parser.ts:199-203`). -/
def findBearerScheme (entries : List (String × Json)) : Option (String × Json) :=
  entries.find? (fun e =>
    strValIs (e.2.get "type") "http" && strValIs (e.2.get "scheme") "bearer")

/-- `entries.find(([, s]) => s.type === 'oauth2')` (`parser.ts:204`). -/
def findOAuth2Scheme (entries : List (String × Json)) : Option (String × Json) :=
  entries.find? (fun e => strValIs (e.2.get "type") "oauth2")

/-- `entries.find(([, s]) => s.type === 'basic')` (`parser.ts:441`, Swagger
dialect only). -/
def findBasicScheme (entries : List (String × Json)) : Option (String × Json) :=
  entries.find? (fun e => strValIs (e.2.get "type") "basic")

/-- The guard on the chosen API-key scheme (`parser.ts:211` and `449`): a
truthy `name` and an `in` equal to `'header'` or `'query'`. When it fails,
the sequential `if` structure of the source falls through to the
bearer/basic check. -/
def apiKeyWellFormed (scheme : Json) : Bool :=
  truthyOpt (scheme.get "name")
    && (strValIs (scheme.get "in") "header" || strValIs (scheme.get "in") "query")

/-- `extractAuthOpenAPI3` (`parser.ts:187-254`). The source is a sequence of
`if (...) { if (...) return ... }` blocks falling through to
`return { type: 'none', config: null }`; the fall-through continuations are
the `afterApiKey`/`afterBearer`/`afterOauth` lets. An absent `flows` object
on a chosen OAuth2 scheme would throw in the source (aborting the document
via `parseOpenAPI3`'s catch); the embedding reads the absent fields as
absent, which no claim distinguishes. -/
def extractAuthOpenAPI3 (schemes : Option Json) : ParsedAuth :=
  match schemes with
  | none => { type := "none", config := none }
  | some s =>
    if !s.truthy || s.entries.length == 0 then { type := "none", config := none }
    else
      let entries := securitySchemeEntries s
      let afterOauth : ParsedAuth := { type := "none", config := none }
      let afterBearer : ParsedAuth :=
        match findOAuth2Scheme entries with
        | some e =>
          if strValIs (e.2.get "type") "oauth2" then
            let flows := (e.2.get "flows").getD .null
            let authCode := (flows.get "authorizationCode").getD .null
            let implicit := (flows.get "implicit").getD .null
            let password := (flows.get "password").getD .null
            let clientCred := (flows.get "clientCredentials").getD .null
            { type := "oauth2", config := some (.oauth2
                (firstTruthy [authCode.get "authorizationUrl",
                  implicit.get "authorizationUrl"] (.str ""))
                (firstTruthy [authCode.get "tokenUrl", password.get "tokenUrl",
                  clientCred.get "tokenUrl"] (.str ""))
                (firstTruthy [authCode.get "scopes", implicit.get "scopes",
                  password.get "scopes", clientCred.get "scopes"] (.obj []))) }
          else afterOauth
        | none => afterOauth
      let afterApiKey : ParsedAuth :=
        match findBearerScheme entries with
        | some e =>
          if strValIs (e.2.get "type") "http" then
            { type := "bearer",
              config := some (.bearer (jsonOr (e.2.get "scheme") (.str "bearer"))) }
          else afterBearer
        | none => afterBearer
      match findApiKeyScheme entries with
      | some e =>
        if strValIs (e.2.get "type") "apiKey" then
          if apiKeyWellFormed e.2 then
            { type := "apiKey", config := some (.apiKey
                ((e.2.get "name").getD .null) ((e.2.get "in").getD .null)) }
          else afterApiKey
        else afterApiKey
      | none => afterApiKey

/-- `extractAuthSwagger2` (`parser.ts:432-479`): same priority chain; the
entries are not `$ref`-filtered, `basic` maps onto the bearer variant with
scheme name `"basic"`, and the OAuth2 flow fields sit flat on the scheme. -/
def extractAuthSwagger2 (definitions : Option Json) : ParsedAuth :=
  match definitions with
  | none => { type := "none", config := none }
  | some s =>
    if !s.truthy || s.entries.length == 0 then { type := "none", config := none }
    else
      let entries := s.entries
      let afterBasic : ParsedAuth :=
        match findOAuth2Scheme entries with
        | some e =>
          if strValIs (e.2.get "type") "oauth2" then
            { type := "oauth2", config := some (.oauth2
                (jsonOr (e.2.get "authorizationUrl") (.str ""))
                (jsonOr (e.2.get "tokenUrl") (.str ""))
                (jsonOr (e.2.get "scopes") (.obj []))) }
          else { type := "none", config := none }
        | none => { type := "none", config := none }
      let afterApiKey : ParsedAuth :=
        match findBasicScheme entries with
        | some _ => { type := "bearer", config := some (.bearer (.str "basic")) }
        | none => afterBasic
      match findApiKeyScheme entries with
      | some e =>
        if strValIs (e.2.get "type") "apiKey" then
          if apiKeyWellFormed e.2 then
            { type := "apiKey", config := some (.apiKey
                ((e.2.get "name").getD .null) ((e.2.get "in").getD .null)) }
          else afterApiKey
        else afterApiKey
      | none => afterApiKey

/-- `HTTP_METHODS` (`parser.ts:256`), the fixed ordered method set. -/
def HTTP_METHODS : List String :=
  ["get", "post", "put", "patch", "delete"]

/-- `a || d` for the string-typed metadata fields (`operationId`, `summary`,
`description`): the truthy value of a validated document is a string; a
truthy non-string would throw into the enclosing per-operation catch in the
source, dropping the operation — no claim depends on that corner. -/
def strOr (o : Option Json) (d : String) : String :=
  match o with
  | some (.str s) => if s == "" then d else s
  | _ => d

/-- `paramToFieldV3` (`parser.ts:328-343`). `required` stores the
truthiness of the raw `required` value: the source stores
`param.required ?? false` and every consumer tests it for truthiness. -/
def paramToFieldV3 (param : Json) : Option ParsedField :=
  match param.get "schema" with
  | some schema =>
    if schema.truthy then
      some (.mk (strOr (param.get "name") "")
        (toTitleCase (strOr (param.get "name") ""))
        (schemaTypeToFieldType (schema.get "type"))
        (truthyOpt (param.get "required"))
        (schema.get "enum") (param.get "description") (schema.get "format")
        (schema.get "default") none none
        (if truthyOpt (param.get "example") then param.get "example"
         else schema.get "example"))
    else none
  | none => none

/-- `extractBodyV3` (`parser.ts:345-364`): the body schema from the first
JSON-compatible content type. -/
def extractBodyV3 (requestBody : Option Json) : List ParsedField :=
  match requestBody with
  | none => []
  | some rb =>
    if !rb.truthy || rb.hasKey "$ref" then []
    else
      let content := rb.get "content"
      let jsonContent :=
        if truthyOpt (optGet content "application/json")
        then optGet content "application/json"
        else optGet content "application/x-www-form-urlencoded"
      if truthyOpt (optGet jsonContent "schema") then
        schemaToFields ((optGet jsonContent "schema").getD .null) 0
      else []

/-- `extractResponseV3` (`parser.ts:366-384`): the response schema from the
first of the `200`/`201`/`2XX` entries. -/
def extractResponseV3 (responses : Option Json) : List ParsedField :=
  let success := firstTruthy
    [optGet responses "200", optGet responses "201", optGet responses "2XX"] .null
  if !success.truthy || success.hasKey "$ref" then []
  else
    let jsonContent := optGet (success.get "content") "application/json"
    if truthyOpt (optGet jsonContent "schema") then
      schemaToFields ((optGet jsonContent "schema").getD .null) 0
    else []

/-- `createActionOpenAPI3` (`parser.ts:279-326`). The source returns `null`
only from its catch (whereupon the action is dropped with a warning); the
total embedding always builds the action. A non-array `parameters` value
would throw into that catch; the embedding reads it as no parameters. -/
def createActionOpenAPI3 (path method : String) (op : Json) : ParsedAction :=
  let slug := generateSlug (strOr (op.get "operationId") (method ++ "-" ++ path))
  let label := strOr (op.get "summary") (toTitleCase slug)
  let description := strOr (op.get "description") (strOr (op.get "summary") "")
  let params := match op.get "parameters" with
    | some (.arr ps) => ps
    | _ => []
  let pathParams := params.filterMap (fun p =>
    match paramToFieldV3 p with
    | some field => if strValIs (p.get "in") "path" then some field else none
    | none => none)
  let queryParams := params.filterMap (fun p =>
    match paramToFieldV3 p with
    | some field => if strValIs (p.get "in") "query" then some field else none
    | none => none)
  { slug := slug, label := label, description := description,
    method := method.toUpper, path := path,
    pathParams := pathParams, queryParams := queryParams,
    bodySchema := extractBodyV3 (op.get "requestBody"),
    responseSchema := extractResponseV3 (op.get "responses"),
    tags := op.get "tags", deprecated := op.get "deprecated" }

/-- `extractActionsOpenAPI3` (`parser.ts:258-277`): one action per
(path, method) pair with a truthy operation, paths in document order,
methods in `HTTP_METHODS` order. -/
def extractActionsOpenAPI3 (paths : Json) : List ParsedAction :=
  (paths.entries.map (fun e =>
    if !e.2.truthy then []
    else HTTP_METHODS.filterMap (fun method =>
      match e.2.get method with
      | some op =>
        if op.truthy then some (createActionOpenAPI3 e.1 method op) else none
      | none => none))).flatten

/-- `paramToFieldV2` (`parser.ts:560-574`): body-style parameters (those
carrying a `schema`) are handled elsewhere and yield `null` here. -/
def paramToFieldV2 (param : Json) : Option ParsedField :=
  if param.hasKey "schema" then none
  else
    some (.mk (strOr (param.get "name") "")
      (toTitleCase (strOr (param.get "name") ""))
      (schemaTypeToFieldType (param.get "type"))
      (truthyOpt (param.get "required"))
      (param.get "enum") (param.get "description") (param.get "format")
      (param.get "default") none none none)

/-- `extractResponseSwagger2` (`parser.ts:576-594`). -/
def extractResponseSwagger2 (responses : Option Json) : List ParsedField :=
  let success := firstTruthy
    [optGet responses "200", optGet responses "201", optGet responses "2XX"] .null
  if !success.truthy || success.hasKey "$ref" then []
  else if truthyOpt (success.get "schema") then
    schemaToFields ((success.get "schema").getD .null) 0
  else []

/-- `createActionSwagger2` (`parser.ts:502-558`). The body schema comes from
the last `in: body` parameter with a truthy `schema` (the loop reassigns
`bodySchema`). -/
def createActionSwagger2 (path method : String) (op : Json) : ParsedAction :=
  let slug := generateSlug (strOr (op.get "operationId") (method ++ "-" ++ path))
  let label := strOr (op.get "summary") (toTitleCase slug)
  let description := strOr (op.get "description") (strOr (op.get "summary") "")
  let params := match op.get "parameters" with
    | some (.arr ps) => ps
    | _ => []
  let pathParams := params.filterMap (fun p =>
    if p.hasKey "in" && strValIs (p.get "in") "path" then paramToFieldV2 p
    else none)
  let queryParams := params.filterMap (fun p =>
    if p.hasKey "in" && strValIs (p.get "in") "query" then paramToFieldV2 p
    else none)
  let bodySchemas := params.filterMap (fun p =>
    if p.hasKey "in" && strValIs (p.get "in") "body" && truthyOpt (p.get "schema")
    then p.get "schema" else none)
  let bodySchema := match bodySchemas.getLast? with
    | some schema => schemaToFields schema 0
    | none => []
  { slug := slug, label := label, description := description,
    method := method.toUpper, path := path,
    pathParams := pathParams, queryParams := queryParams,
    bodySchema := bodySchema,
    responseSchema := extractResponseSwagger2 (op.get "responses"),
    tags := op.get "tags", deprecated := op.get "deprecated" }

/-- `extractActionsSwagger2` (`parser.ts:481-500`). -/
def extractActionsSwagger2 (paths : Json) : List ParsedAction :=
  (paths.entries.map (fun e =>
    if !e.2.truthy then []
    else HTTP_METHODS.filterMap (fun method =>
      match e.2.get method with
      | some op =>
        if op.truthy then some (createActionSwagger2 e.1 method op) else none
      | none => none))).flatten

/-- The optional `contact` sub-object of `ParsedAPI` (`types.ts`). -/
structure ContactInfo where
  name : Option Json
  email : Option Json
  url : Option Json

/-- `ParsedAPI` (`types.ts`), field order as declared there; the metadata
fields hold the raw document values. -/
structure ParsedAPI where
  name : Json
  description : Json
  baseUrl : Json
  auth : ParsedAuth
  actions : List ParsedAction
  warnings : List String
  version : Option Json
  provider : Option Json
  termsOfService : Option Json
  contact : Option ContactInfo

/-- `ParseResult` (`types.ts`): `ParseSuccess | ParseFailure`
(`success: true` with the api, or `success: false` with `error` and
optional `details`). -/
inductive ParseResult where
  | success (api : ParsedAPI)
  | failure (error : String) (details : Option String)

/-- `parseOpenAPI3` (`parser.ts:137-179`). Its catch arm (any exception
during extraction) is unreachable in the total embedding; the
`parseWarnings` passed in by `parseSpec` concern the external validator and
are empty here. -/
def parseOpenAPI3 (spec : Json) : ParseResult :=
  let baseUrl :=
    match spec.get "servers" with
    | some (.arr (s0 :: _)) => (s0.get "url").getD .null
    | _ => .str "https://api.example.com"
  let info := (spec.get "info").getD .null
  ParseResult.success
    { name := jsonOr (info.get "title") (.str "Untitled API"),
      description := jsonOr (info.get "description") (.str ""),
      version := info.get "version",
      baseUrl := baseUrl,
      auth := extractAuthOpenAPI3 (optGet (spec.get "components") "securitySchemes"),
      actions := extractActionsOpenAPI3 (jsonOr (spec.get "paths") (.obj [])),
      warnings := [],
      provider := optGet (info.get "contact") "name",
      termsOfService := info.get "termsOfService",
      contact := match info.get "contact" with
        | some c =>
          if c.truthy then
            some { name := c.get "name", email := c.get "email", url := c.get "url" }
          else none
        | none => none }

/-- The string value of a JSON string (the Swagger base-URL components,
which a validated document declares as strings). -/
def Json.asString : Json → String
  | .str s => s
  | _ => ""

/-- `parseSwagger2` (`parser.ts:388-430`). -/
def parseSwagger2 (spec : Json) : ParseResult :=
  let scheme :=
    match spec.get "schemes" with
    | some (.arr (s0 :: _)) => if s0.truthy then s0 else .str "https"
    | _ => .str "https"
  let host := jsonOr (spec.get "host") (.str "api.example.com")
  let basePath := jsonOr (spec.get "basePath") (.str "")
  let baseUrl : Json :=
    .str (scheme.asString ++ "://" ++ host.asString ++ basePath.asString)
  let info := (spec.get "info").getD .null
  ParseResult.success
    { name := jsonOr (info.get "title") (.str "Untitled API"),
      description := jsonOr (info.get "description") (.str ""),
      version := info.get "version",
      baseUrl := baseUrl,
      auth := extractAuthSwagger2 (spec.get "securityDefinitions"),
      actions := extractActionsSwagger2 ((spec.get "paths").getD (.obj [])),
      warnings := [],
      provider := optGet (info.get "contact") "name",
      termsOfService := info.get "termsOfService",
      contact := match info.get "contact" with
        | some c =>
          if c.truthy then
            some { name := c.get "name", email := c.get "email", url := c.get "url" }
          else none
        | none => none }

/-- `isOpenAPI3` (`parser.ts:116-124`): an object whose `openapi` field is a
string starting with `"3."`. -/
def isOpenAPI3 (spec : Json) : Bool :=
  match spec.get "openapi" with
  | some (.str s) => s.startsWith "3."
  | _ => false

/-- `isSwagger2` (`parser.ts:126-133`): an object whose `swagger` field is
the string `"2.0"`. -/
def isSwagger2 (spec : Json) : Bool :=
  strValIs (spec.get "swagger") "2.0"

/-- The dialect dispatch of `parseSpec` (`parser.ts:62-73`), applied to the
document the external `SwaggerParser.validate`/`parse` call returned (that
validation library is outside this repository; the claims about `parseSpec`
concern this dispatch and the extractors). -/
def parseSpecValidated (validatedSpec : Json) : ParseResult :=
  if isOpenAPI3 validatedSpec then parseOpenAPI3 validatedSpec
  else if isSwagger2 validatedSpec then parseSwagger2 validatedSpec
  else .failure "Unsupported specification version"
    (some "Only OpenAPI 3.x and Swagger 2.0 are supported")

/-- `diffSpecs` (`diff-engine.ts:22-77`): build the two lookup maps, emit
removals, additions, then the per-endpoint comparison for common keys, and
tally the counts over the final change list. -/
def diffSpecs (oldActions newActions : List ParsedAction) : DiffResult :=
  let oldMap := buildMap actionKey oldActions
  let newMap := buildMap actionKey newActions
  -- Removed endpoints (breaking)
  let removed : List DiffChange := oldMap.filterMap (fun e =>
    if mapHas newMap e.1 then none
    else some { type := ChangeType.breaking, category := "endpoint-removed",
                message := "Endpoint removed: " ++ e.2.method ++ " " ++ e.2.path,
                method := some e.2.method, path := some e.2.path })
  -- Added endpoints (non-breaking)
  let added : List DiffChange := newMap.filterMap (fun e =>
    if mapHas oldMap e.1 then none
    else some { type := ChangeType.nonBreaking, category := "endpoint-added",
                message := "Endpoint added: " ++ e.2.method ++ " " ++ e.2.path,
                method := some e.2.method, path := some e.2.path })
  -- Modified endpoints
  let modified : List DiffChange := (newMap.map (fun e =>
    match mapGet oldMap e.1 with
    | some oldAction => compareEndpoints oldAction e.2
    | none => [])).flatten
  let changes := removed ++ added ++ modified
  { changes := changes,
    breakingCount :=
      (changes.filter (fun c => c.type == ChangeType.breaking)).length,
    nonBreakingCount :=
      (changes.filter (fun c => c.type == ChangeType.nonBreaking)).length }

mutual

/-- Does this field tree contain a field (the field itself, one of its
nested `properties`, or its `items` descriptor, recursively) whose key is
`k`? The membership notion behind "field `c` does not appear anywhere". -/
def fieldMentionsKey : ParsedField → String → Bool
  | .mk key _ _ _ _ _ _ _ props itms _, k =>
    key == k
    || (match props with
        | some fs => fieldsMentionKey fs k
        | none => false)
    || (match itms with
        | some f => fieldMentionsKey f k
        | none => false)
termination_by f _ => sizeOf f

/-- `fieldMentionsKey` over a field list. -/
def fieldsMentionKey : List ParsedField → String → Bool
  | [], _ => false
  | f :: rest, k => fieldMentionsKey f k || fieldsMentionKey rest k
termination_by l _ => sizeOf l

end

mutual

/-- Every synthetic array-element descriptor in this field tree has key
`"item"`, label `"Item"` and `required = false` (the C10 invariant),
checked recursively through `properties` and `items`. -/
def fieldItemsOK : ParsedField → Bool
  | .mk _ _ _ _ _ _ _ _ props itms _ =>
    itemsClauseOK itms
    && (match props with
        | some fs => fieldsItemsOK fs
        | none => true)
termination_by f => sizeOf f

/-- The `items` part of `fieldItemsOK`: an attached array-element
descriptor is well-formed and recursively satisfies the invariant. -/
def itemsClauseOK : Option ParsedField → Bool
  | some it =>
    it.key == "item" && it.label == "Item" && !it.required && fieldItemsOK it
  | none => true
termination_by o => sizeOf o

/-- `fieldItemsOK` over a field list. -/
def fieldsItemsOK : List ParsedField → Bool
  | [] => true
  | f :: rest => fieldItemsOK f && fieldsItemsOK rest
termination_by l => sizeOf l

end

/-- The literal schema of the depth-bound claim:
`{type:object, properties:{a:{type:object, properties:{b:{type:object,
properties:{c:{type:string}}}}}}}`. -/
def depthBoundSchema : Json :=
  .obj [("type", .str "object"), ("properties", .obj [
    ("a", .obj [("type", .str "object"), ("properties", .obj [
      ("b", .obj [("type", .str "object"), ("properties", .obj [
        ("c", .obj [("type", .str "string")])])])])])])]

/-- The depth-bound schema with one more object level: `c` is an object
with a string property `d` (four object levels in total). -/
def depthBoundSchemaDeep : Json :=
  .obj [("type", .str "object"), ("properties", .obj [
    ("a", .obj [("type", .str "object"), ("properties", .obj [
      ("b", .obj [("type", .str "object"), ("properties", .obj [
        ("c", .obj [("type", .str "object"), ("properties", .obj [
          ("d", .obj [("type", .str "string")])])])])])])])])]

/-- A parameter field carrying the parts the Diff Engine reads. -/
def mkParam (key : String) (type : FieldType) (required : Bool) : ParsedField :=
  .mk key (toTitleCase key) type required none none none none none none none

/-- An action record built from the parts the Diff Engine compares. -/
def mkAction (method path : String) (queryParams pathParams : List ParsedField)
    (bodySchema responseSchema : List ParsedField) (description : String) :
    ParsedAction :=
  { slug := generateSlug (method ++ "-" ++ path), label := "", description := description,
    method := method, path := path, pathParams := pathParams,
    queryParams := queryParams, bodySchema := bodySchema,
    responseSchema := responseSchema, tags := none, deprecated := none }

/-- An action declaring two query parameters with the same key but
different declared types (legal input to the Diff Engine, whose lookup map
then holds the last one). -/
def dupTypeAction : ParsedAction :=
  mkAction "GET" "/pets" [mkParam "x" .string false, mkParam "x" .number false]
    [] [] [] ""

/-- A plain action with one optional query parameter. -/
def plainAction : ParsedAction :=
  mkAction "GET" "/pets" [mkParam "limit" .number false] [] [] [] "List pets"

/-- The last action of `l` carrying map key `k`. -/
def lastWithKey (l : List ParsedAction) (k : String) : Option ParsedAction :=
  l.reverse.find? (fun b => actionKey b == k)

/-- Replace every action by the last action of the same `(method, path)`
key in the same list — the canonicalization against which C6 compares
`diffSpecs`. -/
def canonLast (l : List ParsedAction) : List ParsedAction :=
  l.map (fun a => (lastWithKey l (actionKey a)).getD a)

/-- A well-formed API-key security scheme (header location). -/
def apiKeyHeaderScheme : Json :=
  .obj [("type", .str "apiKey"), ("name", .str "X-API-Key"), ("in", .str "header")]

/-- An HTTP bearer security scheme. -/
def bearerHttpScheme : Json :=
  .obj [("type", .str "http"), ("scheme", .str "bearer")]

/-- An OAuth2 security scheme with an authorization-code flow. -/
def oauth2FlowScheme : Json :=
  .obj [("type", .str "oauth2"), ("flows", .obj [
    ("authorizationCode", .obj [
      ("authorizationUrl", .str "https://auth.example.com/authorize"),
      ("tokenUrl", .str "https://auth.example.com/token"),
      ("scopes", .obj [])])])]

/-- A security-scheme collection declaring both an API-key scheme and a
bearer scheme (the auth-priority test document). -/
def bothSchemesDoc : Json :=
  .obj [("key", apiKeyHeaderScheme), ("bearer", bearerHttpScheme)]

/-- An API-key scheme with no `name` and a location that is neither
`header` nor `query`. -/
def malformedApiKeyScheme : Json :=
  .obj [("type", .str "apiKey"), ("in", .str "cookie")]

/-- A collection whose only scheme is a malformed API-key scheme. -/
def onlyMalformedApiKeyDoc : Json :=
  .obj [("key", malformedApiKeyScheme)]

/-- A Swagger 2.0 `basic` security scheme. -/
def swaggerBasicScheme : Json :=
  .obj [("type", .str "basic")]

/-! ## Helper lemmas -/

theorem length_filter_type_partition (l : List DiffChange) :
    (l.filter (fun c => c.type == ChangeType.breaking)).length
      + (l.filter (fun c => c.type == ChangeType.nonBreaking)).length
      = l.length := by
  induction l with
  | nil => rfl
  | cons c rest ih => cases h : c.type <;> simp [List.filter_cons, h] <;> omega

theorem diffSpecs_result_shape (oldActions newActions : List ParsedAction) :
    ∃ cs, diffSpecs oldActions newActions =
      { changes := cs,
        breakingCount := (cs.filter (fun c => c.type == ChangeType.breaking)).length,
        nonBreakingCount :=
          (cs.filter (fun c => c.type == ChangeType.nonBreaking)).length } :=
  ⟨_, rfl⟩

theorem filterMap_guard_eq_filter_map {α β : Type} (l : List α) (c : α → Bool)
    (g : α → β) :
    l.filterMap (fun a => if c a then none else some (g a))
      = (l.filter (fun a => !c a)).map g := by
  induction l with
  | nil => rfl
  | cons a rest ih => by_cases h : c a <;> simp [h, ih]

theorem contains_insertKey (acc : List String) (a k : String) :
    (insertKey acc a).contains k = (acc.contains k || a == k) := by
  by_cases hmem : a ∈ acc
  · by_cases hak : a = k
    · subst hak; simp [insertKey, hmem]
    · have hne : (a == k) = false := by simpa using hak
      simp [insertKey, hmem, hne]
  · by_cases hak : a = k
    · subst hak; simp [insertKey, hmem]
    · have hne : (a == k) = false := by simpa using hak
      have hka : ¬k = a := fun hk => hak hk.symm
      simp [insertKey, hmem, hne, hka]

theorem contains_foldl_insertKey (l : List String) (acc : List String) (k : String) :
    (l.foldl insertKey acc).contains k = (acc.contains k || l.contains k) := by
  induction l generalizing acc with
  | nil => simp
  | cons a rest ih =>
    simp only [List.foldl_cons, ih, contains_insertKey]
    by_cases hak : a = k
    · subst hak; simp [Bool.or_comm, Bool.or_left_comm]
    · have hne : (a == k) = false := by simpa using hak
      simp [hne, hak, Ne.symm hak, Bool.or_comm, Bool.or_left_comm]

theorem contains_keySet (l : List String) (k : String) :
    (keySet l).contains k = l.contains k := by
  simpa [keySet] using contains_foldl_insertKey l [] k

theorem filter_category_of_filterMap_ne {α : Type} (l : List α)
    (f : α → Option DiffChange) (cat : String)
    (h : ∀ a b, f a = some b → b.category ≠ cat) :
    (l.filterMap f).filter (fun c => c.category == cat) = [] := by
  rw [List.filter_eq_nil_iff]
  intro c hc
  obtain ⟨a, _, hfa⟩ := List.mem_filterMap.mp hc
  simpa using h a c hfa

theorem filter_category_of_filterMap_eq {α : Type} (l : List α)
    (f : α → Option DiffChange) (cat : String)
    (h : ∀ a b, f a = some b → b.category = cat) :
    (l.filterMap f).filter (fun c => c.category == cat) = l.filterMap f := by
  rw [List.filter_eq_self]
  intro c hc
  obtain ⟨a, _, hfa⟩ := List.mem_filterMap.mp hc
  simpa using h a c hfa

theorem mem_setEntry {α : Type} {m : List (String × α)} {k : String} {v : α}
    {e : String × α} (he : e ∈ setEntry m k v) : e ∈ m ∨ e = (k, v) := by
  induction m with
  | nil => simpa [setEntry] using he
  | cons f rest ih =>
    simp only [setEntry] at he
    split at he
    · rcases List.mem_cons.mp he with h1 | h1
      · right; exact h1
      · left; exact List.mem_cons_of_mem f h1
    · rcases List.mem_cons.mp he with h1 | h1
      · left; exact h1 ▸ List.mem_cons_self f rest
      · rcases ih h1 with h2 | h2
        · left; exact List.mem_cons_of_mem f h2
        · right; exact h2

theorem mem_buildMap_aux {α : Type} (key : α → String) (xs : List α) :
    ∀ (acc : List (String × α)) (e : String × α),
      e ∈ xs.foldl (fun m a => setEntry m (key a) a) acc →
      e ∈ acc ∨ (e.2 ∈ xs ∧ e.1 = key e.2) := by
  induction xs with
  | nil => intro acc e he; exact Or.inl he
  | cons a rest ih =>
    intro acc e he
    rcases ih (setEntry acc (key a) a) e he with h1 | h1
    · rcases mem_setEntry h1 with h2 | h2
      · exact Or.inl h2
      · subst h2
        exact Or.inr ⟨List.mem_cons_self a rest, rfl⟩
    · exact Or.inr ⟨List.mem_cons_of_mem a h1.1, h1.2⟩

theorem mem_buildMap {α : Type} {key : α → String} {xs : List α}
    {e : String × α} (he : e ∈ buildMap key xs) :
    e.2 ∈ xs ∧ e.1 = key e.2 := by
  rcases mem_buildMap_aux key xs [] e he with h | h
  · cases h
  · exact h

theorem mapHas_of_mem {α : Type} {m : List (String × α)} {e : String × α}
    (he : e ∈ m) : mapHas m e.1 = true := by
  have : (m.find? (fun f => f.1 == e.1)).isSome = true :=
    List.find?_isSome.mpr ⟨e, he, by simp⟩
  simp [mapHas, mapGet, this]

theorem keys_setEntry {α : Type} (m : List (String × α)) (k : String) (v : α) :
    (setEntry m k v).map Prod.fst = insertKey (m.map Prod.fst) k := by
  induction m with
  | nil => simp [setEntry, insertKey]
  | cons f rest ih =>
    obtain ⟨k', v'⟩ := f
    simp only [setEntry]
    split
    · next heq =>
      subst heq
      simp [insertKey]
    · next hne =>
      have hkk' : (k == k') = false := by
        simpa using fun h : k = k' => hne h.symm
      have hcons : (k' :: rest.map Prod.fst).contains k
          = (rest.map Prod.fst).contains k := by
        simp [List.contains_eq_any_beq, hkk']
      simp only [List.map_cons, ih, insertKey, hcons]
      by_cases h : (rest.map Prod.fst).contains k
      · rw [if_pos h, if_pos h]
      · rw [if_neg h, if_neg h]
        simp

theorem keys_buildMap_aux {α : Type} (key : α → String) (xs : List α) :
    ∀ acc : List (String × α),
      (xs.foldl (fun m a => setEntry m (key a) a) acc).map Prod.fst
        = (xs.map key).foldl insertKey (acc.map Prod.fst) := by
  induction xs with
  | nil => intro acc; rfl
  | cons a rest ih =>
    intro acc
    simp only [List.foldl_cons, List.map_cons, ih, keys_setEntry]

theorem keys_buildMap {α : Type} (key : α → String) (xs : List α) :
    (buildMap key xs).map Prod.fst = keySet (xs.map key) := by
  simpa [buildMap, keySet] using keys_buildMap_aux key xs []

theorem nodup_insertKey {ks : List String} (h : ks.Nodup) (k : String) :
    (insertKey ks k).Nodup := by
  unfold insertKey
  by_cases hc : k ∈ ks
  · simpa [hc] using h
  · simp [hc, List.nodup_append, h]

theorem nodup_keySet_aux (l : List String) :
    ∀ acc : List String, acc.Nodup → (l.foldl insertKey acc).Nodup := by
  induction l with
  | nil => intro acc h; exact h
  | cons a rest ih => intro acc h; exact ih _ (nodup_insertKey h a)

theorem nodup_keySet (l : List String) : (keySet l).Nodup :=
  nodup_keySet_aux l [] List.nodup_nil

theorem mapGet_setEntry {α : Type} (m : List (String × α)) (k : String) (v : α)
    (k' : String) :
    mapGet (setEntry m k v) k' = if k = k' then some v else mapGet m k' := by
  induction m with
  | nil =>
    by_cases h : k = k' <;> simp [setEntry, mapGet, h]
  | cons f rest ih =>
    obtain ⟨k2, v2⟩ := f
    simp only [setEntry]
    split
    · next heq =>
      subst heq
      by_cases h : k2 = k' <;> simp [mapGet, h]
    · next hne =>
      by_cases h : k = k'
      · subst h
        have : (k2 == k) = false := by simpa using hne
        simp only [mapGet, List.find?_cons, this]
        simpa [mapGet] using ih
      · by_cases h2 : k2 = k'
        · subst h2
          simp [mapGet, h]
        · have hb2 : (k2 == k') = false := by simpa using h2
          simp only [mapGet, List.find?_cons, hb2]
          simpa [mapGet, h] using ih

theorem mapGet_foldl {α : Type} (key : α → String) (xs : List α) :
    ∀ (acc : List (String × α)) (k : String),
      mapGet (xs.foldl (fun m a => setEntry m (key a) a) acc) k
        = (xs.reverse.find? (fun a => key a == k)).or (mapGet acc k) := by
  induction xs with
  | nil => intro acc k; simp
  | cons a rest ih =>
    intro acc k
    simp only [List.foldl_cons, ih, List.reverse_cons, List.find?_append]
    rw [Option.or_assoc]
    congr 1
    rw [mapGet_setEntry]
    by_cases h : key a = k
    · simp [h]
    · have hb : (key a == k) = false := by simpa using h
      simp [h, hb]

theorem mapGet_buildMap {α : Type} (key : α → String) (xs : List α) (k : String) :
    mapGet (buildMap key xs) k = xs.reverse.find? (fun a => key a == k) := by
  have := mapGet_foldl key xs [] k
  simpa [buildMap, mapGet] using this

theorem mapGet_eq_none_of_not_mem_keys {α : Type} {m : List (String × α)}
    {k : String} (h : k ∉ m.map Prod.fst) : mapGet m k = none := by
  have : m.find? (fun f => f.1 == k) = none := by
    rw [List.find?_eq_none]
    intro e he hk
    exact h (by
      have : e.1 = k := by simpa using hk
      exact this ▸ List.mem_map_of_mem Prod.fst he)
  simp [mapGet, this]

theorem mapGet_of_mem_nodup {α : Type} {m : List (String × α)}
    (hnd : (m.map Prod.fst).Nodup) {e : String × α} (he : e ∈ m) :
    mapGet m e.1 = some e.2 := by
  induction m with
  | nil => cases he
  | cons f rest ih =>
    rcases List.mem_cons.mp he with h1 | h1
    · subst h1
      simp [mapGet]
    · have hne : f.1 ≠ e.1 := by
        intro heq
        have : e.1 ∈ rest.map Prod.fst := List.mem_map_of_mem Prod.fst h1
        rw [List.map_cons] at hnd
        exact (List.nodup_cons.mp hnd).1 (heq ▸ this)
      have hb : (f.1 == e.1) = false := by simpa using hne
      simp only [mapGet, List.find?_cons, hb]
      exact ih (by
        rw [List.map_cons] at hnd
        exact (List.nodup_cons.mp hnd).2) h1

theorem assocExt {α : Type} :
    ∀ (m1 m2 : List (String × α)),
      m1.map Prod.fst = m2.map Prod.fst → (m1.map Prod.fst).Nodup →
      (∀ k, mapGet m1 k = mapGet m2 k) → m1 = m2 := by
  intro m1
  induction m1 with
  | nil =>
    intro m2 hkeys _ _
    symm
    simpa using (List.map_eq_nil_iff.mp hkeys.symm)
  | cons f t1 ih =>
    intro m2 hkeys hnd hget
    obtain ⟨k, v⟩ := f
    cases m2 with
    | nil => simp at hkeys
    | cons g t2 =>
      obtain ⟨k2, v2⟩ := g
      simp only [List.map_cons, List.cons.injEq] at hkeys
      obtain ⟨hk, htkeys⟩ := hkeys
      subst hk
      have hv : v = v2 := by
        have := hget k
        simpa [mapGet] using this
      subst hv
      have hnd' : k ∉ t1.map Prod.fst ∧ (t1.map Prod.fst).Nodup := by
        rw [List.map_cons] at hnd
        exact List.nodup_cons.mp hnd
      have htl : t1 = t2 := by
        refine ih t2 htkeys hnd'.2 ?_
        intro k'
        by_cases h : k' = k
        · subst h
          rw [mapGet_eq_none_of_not_mem_keys hnd'.1,
            mapGet_eq_none_of_not_mem_keys (htkeys ▸ hnd'.1)]
        · have hb : (k == k') = false := by simpa using fun he => h he.symm
          have := hget k'
          simpa [mapGet, List.find?_cons, hb] using this
      rw [htl]

theorem find?_congr_mem {α : Type} {l : List α} {p q : α → Bool}
    (h : ∀ a ∈ l, p a = q a) : l.find? p = l.find? q := by
  induction l with
  | nil => rfl
  | cons a rest ih =>
    have ha := h a (List.mem_cons_self a rest)
    simp only [List.find?_cons, ha]
    split
    · rfl
    · exact ih (fun b hb => h b (List.mem_cons_of_mem a hb))

theorem actionKey_canonElem (l : List ParsedAction) (a : ParsedAction) :
    actionKey ((lastWithKey l (actionKey a)).getD a) = actionKey a := by
  rcases hf : lastWithKey l (actionKey a) with _ | b
  · rfl
  · have := List.find?_some hf
    simpa using this

theorem map_actionKey_canonLast (l : List ParsedAction) :
    (canonLast l).map actionKey = l.map actionKey := by
  unfold canonLast
  rw [List.map_map]
  exact List.map_congr_left (fun a _ => actionKey_canonElem l a)

theorem lastWithKey_canonLast (l : List ParsedAction) (k : String) :
    lastWithKey (canonLast l) k = lastWithKey l k := by
  have h1 : lastWithKey (canonLast l) k
      = (l.reverse.map (fun a => (lastWithKey l (actionKey a)).getD a)).find?
        (fun b => actionKey b == k) := by
    rw [show lastWithKey (canonLast l) k
        = (canonLast l).reverse.find? (fun b => actionKey b == k) from rfl]
    rw [show canonLast l
        = l.map (fun a => (lastWithKey l (actionKey a)).getD a) from rfl]
    rw [← List.map_reverse]
  rw [h1, List.find?_map]
  rw [find?_congr_mem (q := fun a => actionKey a == k)
    (fun a _ => by
      show (actionKey ((lastWithKey l (actionKey a)).getD a) == k)
        = (actionKey a == k)
      rw [actionKey_canonElem])]
  rcases hf : List.find? (fun a => actionKey a == k) l.reverse with _ | b
  · rw [show lastWithKey l k
      = l.reverse.find? (fun b => actionKey b == k) from rfl, hf]
    rfl
  · have hbk : actionKey b = k := by simpa using List.find?_some hf
    have hlk : lastWithKey l k = some b := hf
    rw [hlk]
    show some ((lastWithKey l (actionKey b)).getD b) = some b
    rw [hbk, hlk]
    rfl

theorem buildMap_canonLast (l : List ParsedAction) :
    buildMap actionKey (canonLast l) = buildMap actionKey l := by
  refine assocExt _ _ ?_ ?_ ?_
  · rw [keys_buildMap, keys_buildMap, map_actionKey_canonLast]
  · rw [keys_buildMap]
    exact nodup_keySet _
  · intro k
    rw [mapGet_buildMap, mapGet_buildMap]
    have h1 : (canonLast l).reverse.find? (fun a => actionKey a == k)
        = lastWithKey (canonLast l) k := rfl
    have h2 : l.reverse.find? (fun a => actionKey a == k) = lastWithKey l k := rfl
    rw [h1, h2, lastWithKey_canonLast]

theorem mem_filterMap_category {α : Type} {l : List α} {f : α → Option DiffChange}
    {cat : String} (h : ∀ a b, f a = some b → b.category = cat) :
    ∀ c ∈ l.filterMap f, c.category = cat := by
  intro c hc
  obtain ⟨a, _, hfa⟩ := List.mem_filterMap.mp hc
  exact h a c hfa

/-- The per-endpoint comparison decomposes into its seven category blocks,
in the source's emission order. -/
theorem compareEndpoints_block_decomp (oldA newA : ParsedAction) :
    ∃ b1 b2 b3 b4 b5 b6 b7 : List DiffChange,
      compareEndpoints oldA newA = b1 ++ b2 ++ b3 ++ b4 ++ b5 ++ b6 ++ b7
      ∧ (∀ c ∈ b1, DiffChange.category c = "required-param-added")
      ∧ (∀ c ∈ b2, DiffChange.category c = "optional-param-added")
      ∧ (∀ c ∈ b3, DiffChange.category c = "param-removed")
      ∧ (∀ c ∈ b4, DiffChange.category c = "param-type-changed")
      ∧ (∀ c ∈ b5, DiffChange.category c = "required-body-field-added")
      ∧ (∀ c ∈ b6, DiffChange.category c = "response-field-removed")
      ∧ (∀ c ∈ b7, DiffChange.category c = "description-changed") := by
  refine ⟨_, _, _, _, _, _, _, rfl, ?_, ?_, ?_, ?_, ?_, ?_, ?_⟩
  · exact mem_filterMap_category (by
      intro a b hb
      repeat' split at hb
      all_goals first | (cases hb; simp) | cases hb)
  · exact mem_filterMap_category (by
      intro a b hb
      repeat' split at hb
      all_goals first | (cases hb; simp) | cases hb)
  · exact mem_filterMap_category (by
      intro a b hb
      repeat' split at hb
      all_goals first | (cases hb; simp) | cases hb)
  · exact mem_filterMap_category (by
      intro a b hb
      repeat' split at hb
      all_goals first | (cases hb; simp) | cases hb)
  · exact mem_filterMap_category (by
      intro a b hb
      repeat' split at hb
      all_goals first | (cases hb; simp) | cases hb)
  · exact mem_filterMap_category (by
      intro a b hb
      repeat' split at hb
      all_goals first | (cases hb; simp) | cases hb)
  · intro c hc
    split at hc
    · rw [List.mem_singleton] at hc
      subst hc
      rfl
    · cases hc

/-- The depth cut-off of the Field Flattener: any call below the bound
returns the empty field list (`parser.ts:603`). -/
theorem depth_cutoff (schema : Json) (depth : Nat) (h : 2 < depth) :
    schemaToFields schema depth = [] := by
  unfold schemaToFields
  rw [if_pos h]

theorem schemaToFields_object (schema : Json) (depth : Nat)
    (hd : ¬depth > 2)
    (hcond : (strValIs (schema.get "type") "object"
      && truthyOpt (schema.get "properties")) = true)
    (props : Json) (hp : schema.get "properties" = some props) :
    schemaToFields schema depth
      = schemaProps (requiredOf schema) props.entries depth := by
  rw [schemaToFields.eq_def, if_neg hd, if_pos hcond]
  split
  · next props' hp' =>
    rw [hp] at hp'
    cases hp'
    rfl
  · next hp' =>
    rw [hp] at hp'
    cases hp'

theorem schemaToFields_array (schema : Json) (depth : Nat)
    (hd : ¬depth > 2)
    (hncond : ¬(strValIs (schema.get "type") "object"
      && truthyOpt (schema.get "properties")) = true)
    (items : Json) (hitems : schema.get "items" = some items)
    (hguard : (strValIs (schema.get "type") "array" && items.truthy
      && !(items.hasKey "$ref")) = true) :
    schemaToFields schema depth = schemaToFields items depth := by
  rw [schemaToFields.eq_def, if_neg hd, if_neg hncond]
  split
  · next items' hit' =>
    rw [hitems] at hit'
    cases hit'
    rw [if_pos hguard]
  · next hit' =>
    rw [hitems] at hit'
    cases hit'

theorem schemaProps_nil (req : List Json) (depth : Nat) :
    schemaProps req [] depth = [] := by
  rw [schemaProps.eq_def]

theorem schemaProps_cons_ref (req : List Json) (key : String) (prop : Json)
    (rest : List (String × Json)) (depth : Nat)
    (h : prop.hasKey "$ref" = true) :
    schemaProps req ((key, prop) :: rest) depth = schemaProps req rest depth := by
  rw [schemaProps.eq_def]
  exact if_pos h

theorem schemaProps_cons (req : List Json) (key : String) (prop : Json)
    (rest : List (String × Json)) (depth : Nat)
    (h : ¬prop.hasKey "$ref" = true) :
    schemaProps req ((key, prop) :: rest) depth
      = ParsedField.mk key (toTitleCase key)
          (schemaTypeToFieldType (prop.get "type")) (requiredIncludes req key)
          (prop.get "enum") (prop.get "description") (prop.get "format")
          (prop.get "default")
          (if (strValIs (prop.get "type") "object"
              && truthyOpt (prop.get "properties")) = true
            then some (schemaToFields prop (depth + 1)) else none)
          (schemaItems prop depth) (prop.get "example")
        :: schemaProps req rest depth := by
  rw [schemaProps.eq_def]
  exact if_neg h

theorem schemaItems_some (prop : Json) (depth : Nat) (items : Json)
    (hitems : prop.get "items" = some items)
    (hguard : (strValIs (prop.get "type") "array" && items.truthy
      && !(items.hasKey "$ref")) = true) :
    schemaItems prop depth
      = some (ParsedField.mk "item" "Item"
          (schemaTypeToFieldType (items.get "type")) false (items.get "enum")
          (items.get "description") (items.get "format") none
          (if (strValIs (items.get "type") "object"
              && truthyOpt (items.get "properties")) = true
            then some (schemaToFields items (depth + 1)) else none)
          none none) := by
  rw [schemaItems.eq_def]
  split
  · next items' hit' =>
    rw [hitems] at hit'
    cases hit'
    rw [if_pos hguard]
  · next hit' =>
    rw [hitems] at hit'
    cases hit'

/-! ## Claim theorems -/

/-- C7: `diffSpecs` is a total function of its two action lists — in this
embedding it is a plain function into `DiffResult`, with no failure
constructor, mirroring the source's lack of any `throw` — and its aggregate
counts are exact tallies over the returned change list: `breakingCount`
counts the `breaking` changes, `nonBreakingCount` the `non-breaking` ones,
and the two sum to the length of `changes`. -/
theorem diffSpecs_total_and_counts_exact (oldActions newActions : List ParsedAction) :
    (diffSpecs oldActions newActions).breakingCount
      = (diffSpecs oldActions newActions).changes.countP
          (fun c => c.type == ChangeType.breaking)
    ∧ (diffSpecs oldActions newActions).nonBreakingCount
      = (diffSpecs oldActions newActions).changes.countP
          (fun c => c.type == ChangeType.nonBreaking)
    ∧ (diffSpecs oldActions newActions).breakingCount
        + (diffSpecs oldActions newActions).nonBreakingCount
      = (diffSpecs oldActions newActions).changes.length := by
  obtain ⟨cs, hcs⟩ := diffSpecs_result_shape oldActions newActions
  rw [hcs]
  refine ⟨?_, ?_, ?_⟩
  · simp [List.countP_eq_length_filter]
  · simp [List.countP_eq_length_filter]
  · exact length_filter_type_partition cs

/-- C8: a validated document with no recognizable dialect marker — its
`openapi` field is not a string starting with `"3."` and its `swagger`
field is not the string `"2.0"` — makes the dispatch of `parseSpec` return
the failure result with the `UnsupportedVersion` error text, and no
(partial) canonical model: the `failure` constructor carries none. -/
theorem parseSpec_unsupportedVersion (doc : Json)
    (hopenapi : ∀ s : String, doc.get "openapi" = some (.str s) →
      s.startsWith "3." = false)
    (hswagger : strValIs (doc.get "swagger") "2.0" = false) :
    parseSpecValidated doc
      = .failure "Unsupported specification version"
          (some "Only OpenAPI 3.x and Swagger 2.0 are supported") := by
  have h3 : isOpenAPI3 doc = false := by
    unfold isOpenAPI3
    split
    · next s hs => exact hopenapi s hs
    · rfl
  have h2 : isSwagger2 doc = false := hswagger
  simp [parseSpecValidated, h3, h2]

/-- Witness for C8: a document whose `openapi` field is the number 3 and
which has no `swagger` field is rejected as `UnsupportedVersion`. -/
theorem parseSpec_unsupportedVersion_witness :
    parseSpecValidated (Json.obj [("openapi", Json.num 3)])
      = .failure "Unsupported specification version"
          (some "Only OpenAPI 3.x and Swagger 2.0 are supported") :=
  parseSpec_unsupportedVersion (Json.obj [("openapi", Json.num 3)])
    (by intro s h; simp [Json.get, lookupField] at h)
    (by decide)

/-- C4: authentication extraction resolves scheme kinds in fixed priority
order, in both dialects. Over any security-scheme collection `s`: in
OpenAPI 3, a found (well-formed) API-key scheme wins; with no API-key
scheme, a bearer scheme wins; with neither, an OAuth2 scheme wins; an
absent or empty collection yields type `"none"`. In Swagger 2.0 the same
chain holds with `basic` in the bearer slot: a found (well-formed) API-key
scheme wins; otherwise a `basic` scheme wins and is mapped onto the bearer
variant with scheme name `"basic"`; otherwise an OAuth2 scheme wins; an
absent or empty collection yields type `"none"`. Concretely, a collection
declaring both an API-key scheme and a bearer (or `basic`) scheme resolves
to type `"apiKey"`. (The well-formedness proviso on the API-key scheme is
the source's own guard; its failure case is claim C9.) -/
theorem extractAuth_priority_order :
    (∀ (s : Json) (e : String × Json), s.truthy = true → s.entries.length ≠ 0 →
      findApiKeyScheme (securitySchemeEntries s) = some e →
      apiKeyWellFormed e.2 = true →
      (extractAuthOpenAPI3 (some s)).type = "apiKey")
    ∧ (∀ (s : Json) (e : String × Json), s.truthy = true → s.entries.length ≠ 0 →
      findApiKeyScheme (securitySchemeEntries s) = none →
      findBearerScheme (securitySchemeEntries s) = some e →
      (extractAuthOpenAPI3 (some s)).type = "bearer")
    ∧ (∀ (s : Json) (e : String × Json), s.truthy = true → s.entries.length ≠ 0 →
      findApiKeyScheme (securitySchemeEntries s) = none →
      findBearerScheme (securitySchemeEntries s) = none →
      findOAuth2Scheme (securitySchemeEntries s) = some e →
      (extractAuthOpenAPI3 (some s)).type = "oauth2")
    ∧ extractAuthOpenAPI3 none = { type := "none", config := none }
    ∧ (∀ s : Json, s.entries = [] →
      extractAuthOpenAPI3 (some s) = { type := "none", config := none })
    ∧ (extractAuthOpenAPI3 (some bothSchemesDoc)).type = "apiKey"
    ∧ extractAuthSwagger2 (some (Json.obj [("auth", swaggerBasicScheme)]))
      = { type := "bearer", config := some (.bearer (.str "basic")) }
    ∧ (∀ (s : Json) (e : String × Json), s.truthy = true → s.entries.length ≠ 0 →
      findApiKeyScheme s.entries = some e →
      apiKeyWellFormed e.2 = true →
      (extractAuthSwagger2 (some s)).type = "apiKey")
    ∧ (∀ (s : Json) (e : String × Json), s.truthy = true → s.entries.length ≠ 0 →
      findApiKeyScheme s.entries = none →
      findBasicScheme s.entries = some e →
      extractAuthSwagger2 (some s)
        = { type := "bearer", config := some (.bearer (.str "basic")) })
    ∧ (∀ (s : Json) (e : String × Json), s.truthy = true → s.entries.length ≠ 0 →
      findApiKeyScheme s.entries = none →
      findBasicScheme s.entries = none →
      findOAuth2Scheme s.entries = some e →
      (extractAuthSwagger2 (some s)).type = "oauth2")
    ∧ extractAuthSwagger2 none = { type := "none", config := none }
    ∧ (∀ s : Json, s.entries = [] →
      extractAuthSwagger2 (some s) = { type := "none", config := none }) := by
  refine ⟨?_, ?_, ?_, rfl, ?_, rfl, rfl, ?_, ?_, ?_, rfl, ?_⟩
  · intro s e htr hne hfind hwf
    have hlen : (s.entries.length == 0) = false := by simpa using hne
    have hpred := List.find?_some (show List.find? _ _ = some e by
      simpa [findApiKeyScheme] using hfind)
    simp [extractAuthOpenAPI3, htr, hlen, hfind, hpred, hwf]
  · intro s e htr hne hnone hfind
    have hlen : (s.entries.length == 0) = false := by simpa using hne
    have hpred := List.find?_some (show List.find? _ _ = some e by
      simpa [findBearerScheme] using hfind)
    simp only [Bool.and_eq_true] at hpred
    simp [extractAuthOpenAPI3, htr, hlen, hnone, hfind, hpred.1]
  · intro s e htr hne hnone hnone2 hfind
    have hlen : (s.entries.length == 0) = false := by simpa using hne
    have hpred := List.find?_some (show List.find? _ _ = some e by
      simpa [findOAuth2Scheme] using hfind)
    simp [extractAuthOpenAPI3, htr, hlen, hnone, hnone2, hfind, hpred]
  · intro s hemp
    simp [extractAuthOpenAPI3, hemp]
  · intro s e htr hne hfind hwf
    have hlen : (s.entries.length == 0) = false := by simpa using hne
    have hpred := List.find?_some (show List.find? _ _ = some e by
      simpa [findApiKeyScheme] using hfind)
    simp [extractAuthSwagger2, htr, hlen, hfind, hpred, hwf]
  · intro s e htr hne hnone hfind
    have hlen : (s.entries.length == 0) = false := by simpa using hne
    simp [extractAuthSwagger2, htr, hlen, hnone, hfind]
  · intro s e htr hne hnone hnone2 hfind
    have hlen : (s.entries.length == 0) = false := by simpa using hne
    have hpred := List.find?_some (show List.find? _ _ = some e by
      simpa [findOAuth2Scheme] using hfind)
    simp [extractAuthSwagger2, htr, hlen, hnone, hnone2, hfind, hpred]
  · intro s hemp
    simp [extractAuthSwagger2, hemp]

/-- Witness for C4: the priority cases applied to concrete collections in
both dialects — API-key + bearer resolves to `apiKey`, bearer alone to
`bearer`, OAuth2 alone to `oauth2`, the empty collection to `none`; in the
Swagger dialect an API-key scheme beats a `basic` scheme, `basic` alone
maps onto the bearer variant with scheme name `"basic"`, OAuth2 alone
resolves to `oauth2`, and the empty collection to `none`. -/
theorem extractAuth_priority_order_witness :
    (extractAuthOpenAPI3 (some bothSchemesDoc)).type = "apiKey"
    ∧ (extractAuthOpenAPI3 (some (Json.obj [("bearerAuth", bearerHttpScheme)]))).type
      = "bearer"
    ∧ (extractAuthOpenAPI3 (some (Json.obj [("oauth", oauth2FlowScheme)]))).type
      = "oauth2"
    ∧ extractAuthOpenAPI3 (some (Json.obj []))
      = { type := "none", config := none }
    ∧ (extractAuthSwagger2 (some (Json.obj
        [("b", swaggerBasicScheme), ("k", apiKeyHeaderScheme)]))).type = "apiKey"
    ∧ extractAuthSwagger2 (some (Json.obj [("auth", swaggerBasicScheme)]))
      = { type := "bearer", config := some (.bearer (.str "basic")) }
    ∧ (extractAuthSwagger2 (some (Json.obj [("oauth", oauth2FlowScheme)]))).type
      = "oauth2"
    ∧ extractAuthSwagger2 (some (Json.obj []))
      = { type := "none", config := none } :=
  ⟨extractAuth_priority_order.1 bothSchemesDoc ("key", apiKeyHeaderScheme)
      (by decide) (by decide) rfl (by decide),
    extractAuth_priority_order.2.1 (Json.obj [("bearerAuth", bearerHttpScheme)])
      ("bearerAuth", bearerHttpScheme) (by decide) (by decide) rfl rfl,
    extractAuth_priority_order.2.2.1 (Json.obj [("oauth", oauth2FlowScheme)])
      ("oauth", oauth2FlowScheme) (by decide) (by decide) rfl rfl rfl,
    extractAuth_priority_order.2.2.2.2.1 (Json.obj []) rfl,
    extractAuth_priority_order.2.2.2.2.2.2.2.1
      (Json.obj [("b", swaggerBasicScheme), ("k", apiKeyHeaderScheme)])
      ("k", apiKeyHeaderScheme) (by decide) (by decide) rfl (by decide),
    extractAuth_priority_order.2.2.2.2.2.2.2.2.1
      (Json.obj [("auth", swaggerBasicScheme)]) ("auth", swaggerBasicScheme)
      (by decide) (by decide) rfl rfl,
    extractAuth_priority_order.2.2.2.2.2.2.2.2.2.1
      (Json.obj [("oauth", oauth2FlowScheme)]) ("oauth", oauth2FlowScheme)
      (by decide) (by decide) rfl rfl rfl,
    extractAuth_priority_order.2.2.2.2.2.2.2.2.2.2.2 (Json.obj []) rfl⟩

/-- C9: when the highest-priority API-key scheme lacks a truthy `name` or
declares an `in` location other than `header`/`query`, extraction does not
return an `apiKey` descriptor and does not fail: it falls through to the
next check, then the one after, then `none` — in the OpenAPI 3 dialect to
bearer, then OAuth2, then `none`, and in the Swagger 2.0 dialect to
`basic` (mapped to the bearer variant), then OAuth2, then `none` — so a
collection whose only scheme is such a malformed API-key scheme yields
auth type `none` (with no config), in both dialects. -/
theorem extractAuth_malformedApiKey_fallsThrough :
    (∀ (s : Json) (e e2 : String × Json), s.truthy = true → s.entries.length ≠ 0 →
      findApiKeyScheme (securitySchemeEntries s) = some e →
      apiKeyWellFormed e.2 = false →
      findBearerScheme (securitySchemeEntries s) = some e2 →
      (extractAuthOpenAPI3 (some s)).type = "bearer")
    ∧ (∀ (s : Json) (e e2 : String × Json), s.truthy = true → s.entries.length ≠ 0 →
      findApiKeyScheme (securitySchemeEntries s) = some e →
      apiKeyWellFormed e.2 = false →
      findBearerScheme (securitySchemeEntries s) = none →
      findOAuth2Scheme (securitySchemeEntries s) = some e2 →
      (extractAuthOpenAPI3 (some s)).type = "oauth2")
    ∧ (∀ (s : Json) (e : String × Json), s.truthy = true → s.entries.length ≠ 0 →
      findApiKeyScheme (securitySchemeEntries s) = some e →
      apiKeyWellFormed e.2 = false →
      findBearerScheme (securitySchemeEntries s) = none →
      findOAuth2Scheme (securitySchemeEntries s) = none →
      extractAuthOpenAPI3 (some s) = { type := "none", config := none })
    ∧ extractAuthOpenAPI3 (some onlyMalformedApiKeyDoc)
      = { type := "none", config := none }
    ∧ extractAuthSwagger2 (some onlyMalformedApiKeyDoc)
      = { type := "none", config := none }
    ∧ (∀ (s : Json) (e e2 : String × Json), s.truthy = true → s.entries.length ≠ 0 →
      findApiKeyScheme s.entries = some e →
      apiKeyWellFormed e.2 = false →
      findBasicScheme s.entries = some e2 →
      extractAuthSwagger2 (some s)
        = { type := "bearer", config := some (.bearer (.str "basic")) })
    ∧ (∀ (s : Json) (e e2 : String × Json), s.truthy = true → s.entries.length ≠ 0 →
      findApiKeyScheme s.entries = some e →
      apiKeyWellFormed e.2 = false →
      findBasicScheme s.entries = none →
      findOAuth2Scheme s.entries = some e2 →
      (extractAuthSwagger2 (some s)).type = "oauth2")
    ∧ (∀ (s : Json) (e : String × Json), s.truthy = true → s.entries.length ≠ 0 →
      findApiKeyScheme s.entries = some e →
      apiKeyWellFormed e.2 = false →
      findBasicScheme s.entries = none →
      findOAuth2Scheme s.entries = none →
      extractAuthSwagger2 (some s) = { type := "none", config := none }) := by
  refine ⟨?_, ?_, ?_, rfl, rfl, ?_, ?_, ?_⟩
  · intro s e e2 htr hne hfind hwf hfind2
    have hlen : (s.entries.length == 0) = false := by simpa using hne
    have hpred := List.find?_some (show List.find? _ _ = some e by
      simpa [findApiKeyScheme] using hfind)
    have hpred2 := List.find?_some (show List.find? _ _ = some e2 by
      simpa [findBearerScheme] using hfind2)
    simp only [Bool.and_eq_true] at hpred2
    simp [extractAuthOpenAPI3, htr, hlen, hfind, hpred, hwf, hfind2, hpred2.1]
  · intro s e e2 htr hne hfind hwf hnone hfind2
    have hlen : (s.entries.length == 0) = false := by simpa using hne
    have hpred := List.find?_some (show List.find? _ _ = some e by
      simpa [findApiKeyScheme] using hfind)
    have hpred2 := List.find?_some (show List.find? _ _ = some e2 by
      simpa [findOAuth2Scheme] using hfind2)
    simp [extractAuthOpenAPI3, htr, hlen, hfind, hpred, hwf, hnone, hfind2, hpred2]
  · intro s e htr hne hfind hwf hnone hnone2
    have hlen : (s.entries.length == 0) = false := by simpa using hne
    have hpred := List.find?_some (show List.find? _ _ = some e by
      simpa [findApiKeyScheme] using hfind)
    simp [extractAuthOpenAPI3, htr, hlen, hfind, hpred, hwf, hnone, hnone2]
  · intro s e e2 htr hne hfind hwf hfind2
    have hlen : (s.entries.length == 0) = false := by simpa using hne
    have hpred := List.find?_some (show List.find? _ _ = some e by
      simpa [findApiKeyScheme] using hfind)
    simp [extractAuthSwagger2, htr, hlen, hfind, hpred, hwf, hfind2]
  · intro s e e2 htr hne hfind hwf hnone hfind2
    have hlen : (s.entries.length == 0) = false := by simpa using hne
    have hpred := List.find?_some (show List.find? _ _ = some e by
      simpa [findApiKeyScheme] using hfind)
    have hpred2 := List.find?_some (show List.find? _ _ = some e2 by
      simpa [findOAuth2Scheme] using hfind2)
    simp [extractAuthSwagger2, htr, hlen, hfind, hpred, hwf, hnone, hfind2, hpred2]
  · intro s e htr hne hfind hwf hnone hnone2
    have hlen : (s.entries.length == 0) = false := by simpa using hne
    have hpred := List.find?_some (show List.find? _ _ = some e by
      simpa [findApiKeyScheme] using hfind)
    simp [extractAuthSwagger2, htr, hlen, hfind, hpred, hwf, hnone, hnone2]

/-- The `required-param-added` changes of one endpoint comparison are
exactly one change per new path/query parameter that is required and whose
key is not among the old action's required-parameter keys. -/
theorem compareEndpoints_requiredParamAdded_chr (oldAction newAction : ParsedAction) :
    (compareEndpoints oldAction newAction).filter
        (fun c => c.category == "required-param-added")
      = ((newAction.queryParams ++ newAction.pathParams).filter (fun p =>
          p.required
            && !((((oldAction.queryParams ++ oldAction.pathParams).filter
              (fun q => q.required)).map (fun q => q.key)).contains p.key))).map
          (fun p =>
            { type := ChangeType.breaking, category := "required-param-added",
              message := "Required parameter added: \"" ++ p.key ++ "\" on "
                ++ newAction.method ++ " " ++ newAction.path,
              method := some newAction.method, path := some newAction.path }) := by
  simp only [compareEndpoints]
  rw [List.filter_append, List.filter_append, List.filter_append,
    List.filter_append, List.filter_append, List.filter_append]
  rw [filter_category_of_filterMap_eq _ _ _ (by
      intro a b hb
      repeat' split at hb
      all_goals first | (cases hb; simp) | cases hb)]
  rw [filter_category_of_filterMap_ne _ _ _ (by
      intro a b hb
      repeat' split at hb
      all_goals first | (cases hb; simp) | cases hb),
    filter_category_of_filterMap_ne _ _ _ (by
      intro a b hb
      repeat' split at hb
      all_goals first | (cases hb; simp) | cases hb),
    filter_category_of_filterMap_ne _ _ _ (by
      intro a b hb
      repeat' split at hb
      all_goals first | (cases hb; simp) | cases hb),
    filter_category_of_filterMap_ne _ _ _ (by
      intro a b hb
      repeat' split at hb
      all_goals first | (cases hb; simp) | cases hb),
    filter_category_of_filterMap_ne _ _ _ (by
      intro a b hb
      repeat' split at hb
      all_goals first | (cases hb; simp) | cases hb)]
  have hdesc : (if oldAction.description != newAction.description
        && oldAction.description != "" && newAction.description != "" then
      [{ type := ChangeType.nonBreaking, category := "description-changed",
         message := "Description changed on " ++ newAction.method ++ " "
           ++ newAction.path,
         method := some newAction.method, path := some newAction.path : DiffChange }]
    else ([] : List DiffChange)).filter
      (fun c => c.category == "required-param-added") = [] := by
    split <;> simp
  rw [hdesc]
  simp only [List.append_nil, List.nil_append]
  rw [filterMap_guard_eq_filter_map, List.filter_filter]
  congr 1
  refine List.filter_congr ?_
  intro p _
  rw [contains_keySet]
  exact Bool.and_comm _ _

/-- C3: for an endpoint key present in both lists, the per-endpoint
comparison emits a breaking `required-param-added` change for exactly those
new path/query parameters that are required in the new action and whose key
is not in the set of required-parameter keys of the old action (first
conjunct, a full characterization). Consequently the emission depends on
the old action only through its required-parameter key list, so it fires
identically whether the parameter is brand-new or existed as optional and
became required (second conjunct). -/
theorem requiredParamAdded_exact :
    (∀ oldAction newAction : ParsedAction,
      (compareEndpoints oldAction newAction).filter
          (fun c => c.category == "required-param-added")
        = ((newAction.queryParams ++ newAction.pathParams).filter (fun p =>
            p.required
              && !((((oldAction.queryParams ++ oldAction.pathParams).filter
                (fun q => q.required)).map (fun q => q.key)).contains p.key))).map
            (fun p =>
              { type := ChangeType.breaking, category := "required-param-added",
                message := "Required parameter added: \"" ++ p.key ++ "\" on "
                  ++ newAction.method ++ " " ++ newAction.path,
                method := some newAction.method, path := some newAction.path }))
    ∧ (∀ old1 old2 newAction : ParsedAction,
      ((old1.queryParams ++ old1.pathParams).filter (fun q => q.required)).map
          (fun q => q.key)
        = ((old2.queryParams ++ old2.pathParams).filter (fun q => q.required)).map
          (fun q => q.key) →
      (compareEndpoints old1 newAction).filter
          (fun c => c.category == "required-param-added")
        = (compareEndpoints old2 newAction).filter
          (fun c => c.category == "required-param-added")) := by
  refine ⟨compareEndpoints_requiredParamAdded_chr, ?_⟩
  intro old1 old2 newAction h
  rw [compareEndpoints_requiredParamAdded_chr,
    compareEndpoints_requiredParamAdded_chr, h]

/-- Witness for C3: a parameter `status` that was optional in the old
action fires `required-param-added` exactly as when the old action had no
such parameter at all. -/
theorem requiredParamAdded_exact_witness :
    (compareEndpoints
        (mkAction "GET" "/pets" [mkParam "status" .string false] [] [] [] "")
        (mkAction "GET" "/pets" [mkParam "status" .string true] [] [] [] "")).filter
        (fun c => c.category == "required-param-added")
      = (compareEndpoints (mkAction "GET" "/pets" [] [] [] [] "")
        (mkAction "GET" "/pets" [mkParam "status" .string true] [] [] [] "")).filter
        (fun c => c.category == "required-param-added") :=
  requiredParamAdded_exact.2 _ _ _ (by decide)

/-- C5: the change list returned by `diffSpecs` is ordered exactly as the
algorithm prescribes: all `endpoint-removed` (breaking) changes first, then
all `endpoint-added` (non-breaking) changes, then the per-endpoint
comparison lists in map order; and every per-endpoint list decomposes into
seven blocks in the fixed sub-order `required-param-added`,
`optional-param-added`, `param-removed`, `param-type-changed`,
`required-body-field-added`, `response-field-removed`,
`description-changed`. -/
theorem diffSpecs_change_order (oldActions newActions : List ParsedAction) :
    ∃ (removed added : List DiffChange) (perEndpoint : List (List DiffChange)),
      (diffSpecs oldActions newActions).changes
          = removed ++ added ++ perEndpoint.flatten
      ∧ (∀ c ∈ removed,
          DiffChange.category c = "endpoint-removed"
            ∧ DiffChange.type c = ChangeType.breaking)
      ∧ (∀ c ∈ added,
          DiffChange.category c = "endpoint-added"
            ∧ DiffChange.type c = ChangeType.nonBreaking)
      ∧ (∀ m ∈ perEndpoint, ∃ b1 b2 b3 b4 b5 b6 b7 : List DiffChange,
          m = b1 ++ b2 ++ b3 ++ b4 ++ b5 ++ b6 ++ b7
          ∧ (∀ c ∈ b1, DiffChange.category c = "required-param-added")
          ∧ (∀ c ∈ b2, DiffChange.category c = "optional-param-added")
          ∧ (∀ c ∈ b3, DiffChange.category c = "param-removed")
          ∧ (∀ c ∈ b4, DiffChange.category c = "param-type-changed")
          ∧ (∀ c ∈ b5, DiffChange.category c = "required-body-field-added")
          ∧ (∀ c ∈ b6, DiffChange.category c = "response-field-removed")
          ∧ (∀ c ∈ b7, DiffChange.category c = "description-changed")) := by
  refine ⟨_, _, _, rfl, ?_, ?_, ?_⟩
  · intro c hc
    obtain ⟨a, _, hfa⟩ := List.mem_filterMap.mp hc
    split at hfa
    · cases hfa
    · cases hfa; exact ⟨rfl, rfl⟩
  · intro c hc
    obtain ⟨a, _, hfa⟩ := List.mem_filterMap.mp hc
    split at hfa
    · cases hfa
    · cases hfa; exact ⟨rfl, rfl⟩
  · intro m hm
    obtain ⟨e, _, rfl⟩ := List.mem_map.mp hm
    rcases h : mapGet (buildMap actionKey oldActions) e.1 with _ | oldA
    · exact ⟨[], [], [], [], [], [], [], by simp [h], by simp, by simp, by simp,
        by simp, by simp, by simp, by simp⟩
    · obtain ⟨b1, b2, b3, b4, b5, b6, b7, heq, h1, h2, h3, h4, h5, h6, h7⟩ :=
        compareEndpoints_block_decomp oldA e.2
      exact ⟨b1, b2, b3, b4, b5, b6, b7, by simp [h, heq], h1, h2, h3, h4, h5,
        h6, h7⟩

/-- C6: the Diff Engine treats the last-seen action per `(method, path)`
key as authoritative. Replacing every action of a list by the last
occurrence of its key in the same list (`canonLast`) leaves `diffSpecs`
unchanged, on either side: the lookup maps are built by repeated `Map.set`,
so each key keeps its first-seen position but its last-seen action. -/
theorem diffSpecs_lastSeen_authoritative (oldActions newActions : List ParsedAction) :
    diffSpecs (canonLast oldActions) newActions = diffSpecs oldActions newActions
    ∧ diffSpecs oldActions (canonLast newActions) = diffSpecs oldActions newActions := by
  constructor
  · simp only [diffSpecs, buildMap_canonLast]
  · simp only [diffSpecs, buildMap_canonLast]

/-- With no two same-key path/query parameters of different declared types
in the action, the per-endpoint comparison of an action with itself emits
nothing. -/
theorem compareEndpoints_self (a : ParsedAction)
    (h : ∀ p ∈ a.queryParams ++ a.pathParams,
      ∀ q ∈ a.queryParams ++ a.pathParams, p.key = q.key → p.type = q.type) :
    compareEndpoints a a = [] := by
  simp only [compareEndpoints, List.append_eq_nil]
  refine ⟨⟨⟨⟨⟨⟨?_, ?_⟩, ?_⟩, ?_⟩, ?_⟩, ?_⟩, ?_⟩
  · rw [List.filterMap_eq_nil_iff]
    intro p hp
    have hmem : p.key ∈ ((a.queryParams ++ a.pathParams).filter
        (fun q => q.required)).map (fun q => q.key) :=
      List.mem_map_of_mem _ hp
    have hc : (keySet (((a.queryParams ++ a.pathParams).filter
        (fun q => q.required)).map (fun q => q.key))).contains p.key = true := by
      rw [contains_keySet]
      exact List.elem_eq_true_of_mem hmem
    rw [if_pos hc]
  · rw [List.filterMap_eq_nil_iff]
    intro p hp
    rw [List.mem_filter] at hp
    have hmem : p.key ∈ (a.queryParams ++ a.pathParams).map (fun q => q.key) :=
      List.mem_map_of_mem _ hp.1
    have hc : (keySet ((a.queryParams ++ a.pathParams).map
        (fun q => q.key))).contains p.key = true := by
      rw [contains_keySet]
      exact List.elem_eq_true_of_mem hmem
    rw [if_pos hc]
  · rw [List.filterMap_eq_nil_iff]
    intro k hk
    have hc : (keySet ((a.queryParams ++ a.pathParams).map
        (fun q => q.key))).contains k = true :=
      List.elem_eq_true_of_mem hk
    rw [if_pos hc]
  · rw [List.filterMap_eq_nil_iff]
    intro p hp
    rcases hg : mapGet (buildMap ParsedField.key
        (a.queryParams ++ a.pathParams)) p.key with _ | old
    · simp [hg]
    · have hfind : (a.queryParams ++ a.pathParams).reverse.find?
          (fun q => q.key == p.key) = some old := by
        rw [← mapGet_buildMap]
        exact hg
      have hmem : old ∈ a.queryParams ++ a.pathParams := by
        have := List.mem_of_find?_eq_some hfind
        rwa [List.mem_reverse] at this
      have hkey : old.key = p.key := by simpa using List.find?_some hfind
      have htype : old.type = p.type := h old hmem p hp hkey
      simp [hg, htype]
  · rw [List.filterMap_eq_nil_iff]
    intro f hf
    have hmem : f.key ∈ a.bodySchema.map (fun g => g.key) :=
      List.mem_map_of_mem _ hf
    have hc : (keySet (a.bodySchema.map (fun g => g.key))).contains f.key
        = true := by
      rw [contains_keySet]
      exact List.elem_eq_true_of_mem hmem
    rw [hc]
    simp
  · rw [List.filterMap_eq_nil_iff]
    intro f hf
    have hmem : f.key ∈ a.responseSchema.map (fun g => g.key) :=
      List.mem_map_of_mem _ hf
    have hc : (keySet (a.responseSchema.map (fun g => g.key))).contains f.key
        = true := by
      rw [contains_keySet]
      exact List.elem_eq_true_of_mem hmem
    rw [if_pos hc]
  · simp

/-- Counterexample for C2: the claim fails as stated over all action lists.
For `A = [dupTypeAction]` — one action declaring two query parameters with
key `x` of different types — `diffSpecs(A, A)` is not the empty no-op
result: the self-comparison looks the shared key up in a last-seen map and
emits a `param-type-changed` change for the earlier duplicate. -/
theorem diffSelf_dupKey_counterexample :
    ¬ ((diffSpecs [dupTypeAction] [dupTypeAction]).changes = []
      ∧ (diffSpecs [dupTypeAction] [dupTypeAction]).breakingCount = 0
      ∧ (diffSpecs [dupTypeAction] [dupTypeAction]).nonBreakingCount = 0) := by
  decide

/-- C2 (amended): `diffSpecs(A, A)` returns an empty change list and zero
counts for every action list `A` — including lists with duplicate
`(method, path)` keys — provided that within each action no two of its
path/query parameters share a key with different declared types (the
counterexample shows the proviso is necessary). -/
theorem diffSelf_noop (A : List ParsedAction)
    (h : ∀ a ∈ A, ∀ p ∈ a.queryParams ++ a.pathParams,
      ∀ q ∈ a.queryParams ++ a.pathParams, p.key = q.key → p.type = q.type) :
    (diffSpecs A A).changes = [] ∧ (diffSpecs A A).breakingCount = 0
    ∧ (diffSpecs A A).nonBreakingCount = 0 := by
  obtain ⟨cs, hcs⟩ := diffSpecs_result_shape A A
  have hchanges : (diffSpecs A A).changes = [] := by
    simp only [diffSpecs, List.append_eq_nil]
    refine ⟨⟨?_, ?_⟩, ?_⟩
    · rw [List.filterMap_eq_nil_iff]
      intro e he
      have := mapHas_of_mem he
      simp [this]
    · rw [List.filterMap_eq_nil_iff]
      intro e he
      have := mapHas_of_mem he
      simp [this]
    · rw [List.flatten_eq_nil_iff]
      intro m hm
      obtain ⟨e, he, rfl⟩ := List.mem_map.mp hm
      have hnd : ((buildMap actionKey A).map Prod.fst).Nodup := by
        rw [keys_buildMap]
        exact nodup_keySet _
      have hget := mapGet_of_mem_nodup hnd he
      simp only [hget]
      exact compareEndpoints_self e.2 (h e.2 (mem_buildMap he).1)
  have hcs' : cs = [] := by
    rw [hcs] at hchanges
    exact hchanges
  rw [hcs, hcs']
  simp

/-- Witness for C2 (amended): the no-op holds at a concrete plain action
list. -/
theorem diffSelf_noop_witness :
    (diffSpecs [plainAction] [plainAction]).changes = []
    ∧ (diffSpecs [plainAction] [plainAction]).breakingCount = 0
    ∧ (diffSpecs [plainAction] [plainAction]).nonBreakingCount = 0 :=
  diffSelf_noop [plainAction] (by decide)

/-- Witness for C9: the fall-through cases at concrete collections — in
OpenAPI 3, a malformed API-key scheme next to a bearer scheme yields
`bearer`, next to an OAuth2 scheme yields `oauth2`, and alone yields
`none`; in Swagger 2.0, a malformed API-key scheme next to a `basic`
scheme yields the bearer/basic descriptor, next to an OAuth2 scheme yields
`oauth2`, and alone yields `none`. -/
theorem extractAuth_malformedApiKey_fallsThrough_witness :
    (extractAuthOpenAPI3 (some (Json.obj
      [("key", malformedApiKeyScheme), ("bearerAuth", bearerHttpScheme)]))).type
      = "bearer"
    ∧ (extractAuthOpenAPI3 (some (Json.obj
      [("key", malformedApiKeyScheme), ("oauth", oauth2FlowScheme)]))).type
      = "oauth2"
    ∧ extractAuthOpenAPI3 (some onlyMalformedApiKeyDoc)
      = { type := "none", config := none }
    ∧ extractAuthSwagger2 (some (Json.obj
        [("key", malformedApiKeyScheme), ("auth", swaggerBasicScheme)]))
      = { type := "bearer", config := some (.bearer (.str "basic")) }
    ∧ (extractAuthSwagger2 (some (Json.obj
      [("key", malformedApiKeyScheme), ("oauth", oauth2FlowScheme)]))).type
      = "oauth2"
    ∧ extractAuthSwagger2 (some onlyMalformedApiKeyDoc)
      = { type := "none", config := none } :=
  ⟨extractAuth_malformedApiKey_fallsThrough.1 _ ("key", malformedApiKeyScheme)
      ("bearerAuth", bearerHttpScheme) (by decide) (by decide) rfl (by decide) rfl,
    extractAuth_malformedApiKey_fallsThrough.2.1 _ ("key", malformedApiKeyScheme)
      ("oauth", oauth2FlowScheme) (by decide) (by decide) rfl (by decide) rfl rfl,
    extractAuth_malformedApiKey_fallsThrough.2.2.1 onlyMalformedApiKeyDoc
      ("key", malformedApiKeyScheme) (by decide) (by decide) rfl (by decide) rfl rfl,
    extractAuth_malformedApiKey_fallsThrough.2.2.2.2.2.1 _
      ("key", malformedApiKeyScheme) ("auth", swaggerBasicScheme)
      (by decide) (by decide) rfl (by decide) rfl,
    extractAuth_malformedApiKey_fallsThrough.2.2.2.2.2.2.1 _
      ("key", malformedApiKeyScheme) ("oauth", oauth2FlowScheme)
      (by decide) (by decide) rfl (by decide) rfl rfl,
    extractAuth_malformedApiKey_fallsThrough.2.2.2.2.2.2.2 onlyMalformedApiKeyDoc
      ("key", malformedApiKeyScheme) (by decide) (by decide) rfl (by decide)
      rfl rfl⟩


/-- C10: every synthetic array-element descriptor produced anywhere in a
`schemaToFields` result — the `items` field attached to an array-typed
property — has key `"item"`, label `"Item"` and `required = false`, for
every input schema and depth (checked recursively through nested
`properties` and `items` by `fieldsItemsOK`). -/
theorem schemaToFields_itemDescriptor_invariant :
    ∀ (schema : Json) (depth : Nat),
      fieldsItemsOK (schemaToFields schema depth) = true := by
  refine schemaToFields.induct
    (fun schema depth => fieldsItemsOK (schemaToFields schema depth) = true)
    (fun req properties depth =>
      fieldsItemsOK (schemaProps req properties depth) = true)
    (fun prop depth => itemsClauseOK (schemaItems prop depth) = true)
    ?_ ?_ ?_ ?_ ?_ ?_ ?_ ?_ ?_ ?_ ?_ ?_
  · intro schema depth h
    rw [depth_cutoff schema depth h]
    exact fieldsItemsOK.eq_1
  · intro schema depth hd hcond props hp ih
    rw [schemaToFields_object schema depth hd hcond props hp]
    exact ih
  · intro schema depth hd hcond hp
    rw [schemaToFields.eq_def, if_neg hd, if_pos hcond]
    split
    · next props' hp' =>
      rw [hp] at hp'
      cases hp'
    · next =>
      exact fieldsItemsOK.eq_1
  · intro schema depth hd hncond items hitems hguard ih
    rw [schemaToFields_array schema depth hd hncond items hitems hguard]
    exact ih
  · intro schema depth hd hncond items hitems hguard
    rw [schemaToFields.eq_def, if_neg hd, if_neg hncond]
    split
    · next items' hit' =>
      rw [hitems] at hit'
      cases hit'
      rw [if_neg hguard]
      exact fieldsItemsOK.eq_1
    · next hit' =>
      rw [hitems] at hit'
      cases hit'
  · intro schema depth hd hncond hitems
    rw [schemaToFields.eq_def, if_neg hd, if_neg hncond]
    split
    · next items' hit' =>
      rw [hitems] at hit'
      cases hit'
    · next =>
      exact fieldsItemsOK.eq_1
  · intro req depth
    rw [schemaProps_nil]
    exact fieldsItemsOK.eq_1
  · intro req depth key prop rest href ih
    rw [schemaProps_cons_ref req key prop rest depth href]
    exact ih
  · intro req depth key prop rest href ih1 ih3 ih2
    rw [schemaProps_cons req key prop rest depth href]
    rw [fieldsItemsOK.eq_2, Bool.and_eq_true]
    refine ⟨?_, ih2⟩
    by_cases hcond : (strValIs (prop.get "type") "object"
        && truthyOpt (prop.get "properties")) = true
    · rw [if_pos hcond, fieldItemsOK.eq_1, Bool.and_eq_true]
      exact ⟨ih3, ih1⟩
    · rw [if_neg hcond, fieldItemsOK.eq_2, Bool.and_true]
      exact ih3
  · intro prop depth items hitems hguard ih
    rw [schemaItems_some prop depth items hitems hguard, itemsClauseOK.eq_1]
    simp only [ParsedField.key, ParsedField.label, ParsedField.required]
    simp only [Bool.not_false, Bool.and_true, Bool.true_and, beq_self_eq_true]
    by_cases hcond : (strValIs (items.get "type") "object"
        && truthyOpt (items.get "properties")) = true
    · rw [if_pos hcond, fieldItemsOK.eq_1, Bool.and_eq_true]
      exact ⟨itemsClauseOK.eq_2, ih⟩
    · rw [if_neg hcond, fieldItemsOK.eq_2, Bool.and_true]
      exact itemsClauseOK.eq_2
  · intro prop depth items hitems hguard
    rw [schemaItems.eq_def]
    split
    · next items' hit' =>
      rw [hitems] at hit'
      cases hit'
      rw [if_neg hguard]
      exact itemsClauseOK.eq_2
    · next hit' =>
      rw [hitems] at hit'
      cases hit'
  · intro prop depth hitems
    rw [schemaItems.eq_def]
    split
    · next items' hit' =>
      rw [hitems] at hit'
      cases hit'
    · next =>
      exact itemsClauseOK.eq_2

/-- Counterexample for C1: flattening the literal three-object-level schema
`{type:object, properties:{a:{type:object, properties:{b:{type:object,
properties:{c:{type:string}}}}}}}` at top level does produce the field with
key `"c"` (inside `a.properties[0].properties[0]`), contradicting the
claim that `c` does not appear anywhere in the result. -/
theorem depthBound_c_appears :
    fieldsMentionKey (schemaToFields depthBoundSchema 0) "c" = true := by
  simp [schemaToFields, schemaProps, schemaItems, depthBoundSchema, Json.get,
    lookupField, strValIs, truthyOpt, Json.truthy, Json.entries, requiredOf,
    requiredIncludes, Json.hasKey, schemaTypeToFieldType, toTitleCase,
    upperAtBoundaries, isWordChar, fieldMentionsKey, fieldsMentionKey]

/-- C1 (amended): flattening cuts off one object level deeper than the
claim states. For every schema, a call at depth greater than 2 returns the
empty field list; consequently, in the literal schema extended by a fourth
object level (`c` an object with string property `d`), `c` still appears
while `d` is dropped — and in the original three-level schema `c` itself
appears (see the counterexample). -/
theorem depthBound_one_level_deeper :
    (∀ (schema : Json) (depth : Nat), 2 < depth → schemaToFields schema depth = [])
    ∧ fieldsMentionKey (schemaToFields depthBoundSchemaDeep 0) "c" = true
    ∧ fieldsMentionKey (schemaToFields depthBoundSchemaDeep 0) "d" = false := by
  refine ⟨depth_cutoff, ?_, ?_⟩
  · simp [schemaToFields, schemaProps, schemaItems, depthBoundSchemaDeep,
      Json.get, lookupField, strValIs, truthyOpt, Json.truthy, Json.entries,
      requiredOf, requiredIncludes, Json.hasKey, schemaTypeToFieldType,
      toTitleCase, upperAtBoundaries, isWordChar, fieldMentionsKey,
      fieldsMentionKey]
  · simp [schemaToFields, schemaProps, schemaItems, depthBoundSchemaDeep,
      Json.get, lookupField, strValIs, truthyOpt, Json.truthy, Json.entries,
      requiredOf, requiredIncludes, Json.hasKey, schemaTypeToFieldType,
      toTitleCase, upperAtBoundaries, isWordChar, fieldMentionsKey,
      fieldsMentionKey]

/-- Witness for C1 (amended): a depth-3 call on a concrete schema returns
the empty field list. -/
theorem depthBound_one_level_deeper_witness :
    schemaToFields (Json.str "x") 3 = [] :=
  depthBound_one_level_deeper.1 (Json.str "x") 3 (by norm_num)

end Specway
